import Mathlib

/-!
# Verification of the after-school-manager sync and roster core

Shallow embedding of the reconciliation pass (`src/app/api/sync-asp-data/route.ts`),
the roster aggregation used by the daily email (`src/app/api/send-daily-email/route.ts`)
and the class detail view (`src/app/class/[id]/page.tsx`), and the two meeting-times
parsers, together with proofs about the spec's testable properties.

Database tables are modelled as Lean lists of rows; the PostgREST upsert with
`onConflict` on a column set is modelled as "update the unique row matching those
columns, else insert"; timestamps are abstract `Nat` instants.
-/

namespace ASP

/-! ## Character and string helpers shared by the parser embeddings -/

/-- Exactly `n` decimal digits, as in the regex fragment `\d{n}`. -/
def takeDigits : Nat → List Char → Option (List Char × List Char)
  | 0, cs => some ([], cs)
  | _ + 1, [] => none
  | n + 1, c :: cs =>
    if c.isDigit then (takeDigits n cs).map (fun p => (c :: p.1, p.2)) else none

/-- One or more decimal digits, greedily, as in `\d+`. -/
def takeDigits1 (cs : List Char) : Option (List Char × List Char) :=
  let ds := cs.takeWhile Char.isDigit
  if ds.isEmpty then none else some (ds, cs.dropWhile Char.isDigit)

/-- Greedy whitespace skip, as in `\s*`. -/
def dropSpaces (cs : List Char) : List Char := cs.dropWhile Char.isWhitespace

/-- Case-insensitive literal match returning the rest of the input. -/
def matchCILiteral : List Char → List Char → Option (List Char)
  | [], cs => some cs
  | _ :: _, [] => none
  | p :: ps, c :: cs => if p.toLower = c.toLower then matchCILiteral ps cs else none

/-- Case-sensitive literal match returning the rest of the input. -/
def matchLiteral : List Char → List Char → Option (List Char)
  | [], cs => some cs
  | _ :: _, [] => none
  | p :: ps, c :: cs => if p = c then matchLiteral ps cs else none

/-- `Number(...)` applied to a digits-only string. -/
def charsToNat (cs : List Char) : Nat :=
  cs.foldl (fun acc c => acc * 10 + (c.toNat - 48)) 0

/-! ## `parseMeetingTimes` from `src/app/api/sync-asp-data/route.ts`

Parses strings like `"Monday 3:45 PM - 5:00 PM"`. The day regex is
`^(Monday|Tuesday|Wednesday|Thursday|Friday)`; the time regex is
`(\d{1,2}:\d{2})\s*(AM|PM)\s*-\s*(\d{1,2}:\d{2})\s*(AM|PM)` searched anywhere
in the string. -/

structure ParsedMeetingTimes where
  day_of_week : String
  start_time : String
  end_time : String
deriving DecidableEq

def weekdayAlternatives : List String :=
  ["Monday", "Tuesday", "Wednesday", "Thursday", "Friday"]

/-- `meetingTimes.match(/^(Monday|Tuesday|Wednesday|Thursday|Friday)/)`:
the first alternative that is a prefix of the string. -/
def matchDayName (s : String) : Option String :=
  weekdayAlternatives.find? (fun d => (matchLiteral d.data s.data).isSome)

/-- `\d{hlen}:\d{2}` at the current position, returning the matched clock text. -/
def matchClock (hlen : Nat) (cs : List Char) : Option (List Char × List Char) :=
  match takeDigits hlen cs with
  | none => none
  | some (h, rest) =>
    match rest with
    | ':' :: rest2 =>
      match takeDigits 2 rest2 with
      | none => none
      | some (m, rest3) => some (h ++ ':' :: m, rest3)
    | _ => none

/-- `(AM|PM)` at the current position. -/
def matchPeriod (cs : List Char) : Option (String × List Char) :=
  match cs with
  | 'A' :: 'M' :: rest => some ("AM", rest)
  | 'P' :: 'M' :: rest => some ("PM", rest)
  | _ => none

/-- The whole time-range pattern at the current position, with the hour widths of
the two clock groups fixed (the regex engine tries width 2 before width 1). -/
def matchTimeRangeWith (h1 h2 : Nat) (cs : List Char) :
    Option (List Char × String × List Char × String) :=
  match matchClock h1 cs with
  | none => none
  | some (t1, r1) =>
    match matchPeriod (dropSpaces r1) with
    | none => none
    | some (p1, r2) =>
      match dropSpaces r2 with
      | '-' :: r3 =>
        match matchClock h2 (dropSpaces r3) with
        | none => none
        | some (t2, r4) =>
          match matchPeriod (dropSpaces r4) with
          | none => none
          | some (p2, _) => some (t1, p1, t2, p2)
      | _ => none

/-- Backtracking over the greedy `\d{1,2}` choices at one position. -/
def matchTimeRangeAt (cs : List Char) : Option (List Char × String × List Char × String) :=
  (matchTimeRangeWith 2 2 cs).orElse fun _ =>
    (matchTimeRangeWith 2 1 cs).orElse fun _ =>
      (matchTimeRangeWith 1 2 cs).orElse fun _ =>
        matchTimeRangeWith 1 1 cs

/-- Leftmost match of the time-range regex anywhere in the string. -/
def findTimeMatch : List Char → Option (List Char × String × List Char × String)
  | [] => none
  | c :: cs =>
    match matchTimeRangeAt (c :: cs) with
    | some m => some m
    | none => findTimeMatch cs

/-- Decimal digits of a `Nat`, most significant first (fuelled by the number). -/
def natDigitsAux : Nat → Nat → List Char
  | 0, _ => []
  | _ + 1, 0 => []
  | fuel + 1, n + 1 =>
    natDigitsAux fuel ((n + 1) / 10) ++ [Char.ofNat (48 + (n + 1) % 10)]

/-- `n.toString()` for a `Nat`. -/
def natToChars (n : Nat) : List Char :=
  if n = 0 then ['0'] else natDigitsAux (n + 1) n

/-- `n.toString().padStart(2, '0')`. -/
def pad2 (n : Nat) : List Char :=
  let s := natToChars n
  if s.length < 2 then '0' :: s else s

/-- The `convertTo24Hour` closure inside `parseMeetingTimes`:
`time.split(':')` into hour and minute numbers, 12-hour to 24-hour shift, re-pad. -/
def convertTo24Hour (time : List Char) (period : String) : String :=
  let hours := charsToNat (time.takeWhile (· ≠ ':'))
  let minutes := charsToNat ((time.dropWhile (· ≠ ':')).drop 1)
  let h :=
    if period = "PM" ∧ hours ≠ 12 then hours + 12
    else if period = "AM" ∧ hours = 12 then 0
    else hours
  String.mk (pad2 h ++ ':' :: pad2 minutes ++ [':', '0', '0'])

/-- `parseMeetingTimes` from `src/app/api/sync-asp-data/route.ts`. -/
def parseMeetingTimes (meetingTimes : String) : ParsedMeetingTimes :=
  let defaults : ParsedMeetingTimes :=
    ⟨"Unknown", "15:45:00", "17:00:00"⟩
  if meetingTimes = "" then defaults
  else
    match matchDayName meetingTimes with
    | none => defaults
    | some day =>
      match findTimeMatch meetingTimes.data with
      | some (t1, p1, t2, p2) => ⟨day, convertTo24Hour t1 p1, convertTo24Hour t2 p2⟩
      | none => ⟨day, defaults.start_time, defaults.end_time⟩

/-! ## `extractClassName` from `src/app/api/sync-asp-data/route.ts`

`programName.replace(/\s*ASP Semester \d+\s*/gi, '').replace(/\s+$/, '').trim()`. -/

/-- One attempted match of `\s*ASP Semester \d+\s*` (case-insensitive) at the
current position, returning the input after the match. -/
def matchAspSemesterAt (cs : List Char) : Option (List Char) :=
  match matchCILiteral "ASP Semester ".data (dropSpaces cs) with
  | none => none
  | some r =>
    match takeDigits1 r with
    | none => none
    | some (_, rest) => some (dropSpaces rest)

/-- Global replace of the pattern by the empty string, fuelled by input length. -/
def removeAspSemesterAux : Nat → List Char → List Char
  | 0, cs => cs
  | _ + 1, [] => []
  | fuel + 1, c :: cs =>
    match matchAspSemesterAt (c :: cs) with
    | some rest => removeAspSemesterAux fuel rest
    | none => c :: removeAspSemesterAux fuel cs

/-- `.replace(/\s+$/, '')`: drop trailing whitespace. -/
def dropTrailingWs (cs : List Char) : List Char :=
  (cs.reverse.dropWhile Char.isWhitespace).reverse

/-- `.trim()`: drop whitespace at both ends. -/
def trimChars (cs : List Char) : List Char :=
  dropTrailingWs (cs.dropWhile Char.isWhitespace)

/-- `extractClassName` from `src/app/api/sync-asp-data/route.ts`. -/
def extractClassName (programName : String) : String :=
  let removed := removeAspSemesterAux (programName.data.length + 1) programName.data
  String.mk (trimChars (dropTrailingWs removed))

/-! ## `parseMeetingTimes` from the sync script (`src/unnamed/part_003`)

Parses strings like `"M:3:45 - 5:00"` with the anchored regex
`^([MTWRF]):(\d+:\d+)\s*-\s*(\d+:\d+)$`, falling back to `^([MTWRF])` and then
to a `day_of_week: 'Unknown'` record with `null` times. -/

structure ScriptParsedMeetingTimes where
  day_of_week : String
  start_time : Option String
  end_time : Option String
deriving DecidableEq

def scriptDayCodes : List Char := ['M', 'T', 'W', 'R', 'F']

def scriptDayMap (c : Char) : Option String :=
  match c with
  | 'M' => some "Monday"
  | 'T' => some "Tuesday"
  | 'W' => some "Wednesday"
  | 'R' => some "Thursday"
  | 'F' => some "Friday"
  | _ => none

/-- `(\d+:\d+)` at the current position. -/
def matchClockPlus (cs : List Char) : Option (List Char × List Char) :=
  match takeDigits1 cs with
  | none => none
  | some (h, rest) =>
    match rest with
    | ':' :: rest2 =>
      match takeDigits1 rest2 with
      | none => none
      | some (m, rest3) => some (h ++ ':' :: m, rest3)
    | _ => none

/-- The full anchored regex `^([MTWRF]):(\d+:\d+)\s*-\s*(\d+:\d+)$`. -/
def matchScriptFull (cs : List Char) : Option (Char × String × String) :=
  match cs with
  | c :: ':' :: rest =>
    if c ∈ scriptDayCodes then
      match matchClockPlus rest with
      | none => none
      | some (t1, r1) =>
        match dropSpaces r1 with
        | '-' :: r2 =>
          match matchClockPlus (dropSpaces r2) with
          | none => none
          | some (t2, r3) => if r3 = [] then some (c, String.mk t1, String.mk t2) else none
        | _ => none
    else none
  | _ => none

/-- `parseMeetingTimes` from the sync script in `src/unnamed/part_003`. -/
def parseMeetingTimesScript (meetingTimes : String) : ScriptParsedMeetingTimes :=
  if meetingTimes = "" then ⟨"Unknown", none, none⟩
  else
    match matchScriptFull meetingTimes.data with
    | some (c, t1, t2) =>
      ⟨(scriptDayMap c).getD (String.mk [c]), some (t1 ++ ":00"), some (t2 ++ ":00")⟩
    | none =>
      match meetingTimes.data with
      | c :: _ =>
        if c ∈ scriptDayCodes then ⟨(scriptDayMap c).getD (String.mk [c]), none, none⟩
        else ⟨"Unknown", none, none⟩
      | [] => ⟨"Unknown", none, none⟩

/-! ## Entity Store data model

Rows of the `asp_classes` and `asp_enrollments` tables, as selected and written
by `src/app/api/sync-asp-data/route.ts` (see also the row types in
`src/unnamed/part_000`). Internal ids are modelled as `Nat`; row insertion
draws a fresh id from a per-table counter. -/

/-- A row of `asp_classes`. -/
structure ClassRow where
  id : Nat
  vc_class_id : String
  class_name : String
  day_of_week : String
  start_time : String
  end_time : String
  instructor : Option String
  capacity : Option Nat
  is_active : Bool
deriving DecidableEq

/-- A row of `asp_enrollments`. -/
structure EnrollRow where
  id : Nat
  class_id : Nat
  student_person_id : Nat
  enrollment_type : Option String
  source : String
  status : String
  fee_paid : Bool
  notes : Option String
  removal_reason : Option String
  created_by : Option String
deriving DecidableEq

/-- The Entity Store state touched by the sync pass. `lastSync` models the
`asp_system_status.last_vc_sync` timestamp. -/
structure Store where
  classes : List ClassRow
  enrollments : List EnrollRow
  nextClassId : Nat
  nextEnrollId : Nat
  lastSync : Nat
deriving DecidableEq

/-- A class row of the BigQuery feed (`asp_class_list` query in the route). -/
structure BQClassRow where
  vc_class_id : String
  program_name : String
  meeting_times : String
  instructor : Option String
  capacity : Option Nat
deriving DecidableEq

/-- An enrollment row of the BigQuery feed (`asp_rosters` query in the route). -/
structure BQEnrollmentRow where
  vc_class_id : String
  student_person_id : Nat
  enrollment_status : Option String
deriving DecidableEq

/-! ## The id map (`classIdMap`, a JS `Map` from `vc_class_id` to internal id) -/

abbrev IdMap := List (String × Nat)

/-- `map.get(k)`: the most recently `set` binding wins. -/
def mapGet (m : IdMap) (k : String) : Option Nat :=
  (m.find? (fun p => p.1 = k)).map (·.2)

/-- `map.set(k, v)`. -/
def mapSet (m : IdMap) (k : String) (v : Nat) : IdMap := (k, v) :: m

/-- `existingClasses.forEach(c => classIdMap.set(c.vc_class_id, c.id))`. -/
def buildClassIdMap (cs : List ClassRow) : IdMap :=
  cs.foldl (fun m c => mapSet m c.vc_class_id c.id) []

/-! ## Step 3: upsert classes -/

/-- The `classData` object built for each feed class row: the fields written by
both the update and the insert branch. `(row.instructor as string) || null` and
`(row.capacity as number) || null` turn falsy values (empty string, zero) into
`null`. -/
structure ClassData where
  vc_class_id : String
  class_name : String
  day_of_week : String
  start_time : String
  end_time : String
  instructor : Option String
  capacity : Option Nat
deriving DecidableEq

def mkClassData (row : BQClassRow) : ClassData :=
  let parsed := parseMeetingTimes row.meeting_times
  { vc_class_id := row.vc_class_id
    class_name := extractClassName row.program_name
    day_of_week := parsed.day_of_week
    start_time := parsed.start_time
    end_time := parsed.end_time
    instructor := match row.instructor with
      | some s => if s = "" then none else some s
      | none => none
    capacity := match row.capacity with
      | some n => if n = 0 then none else some n
      | none => none }

/-- `.update(classData).eq('id', ...)` applied to one row (sets `is_active: true`). -/
def applyClassData (c : ClassRow) (d : ClassData) : ClassRow :=
  { c with
    vc_class_id := d.vc_class_id
    class_name := d.class_name
    day_of_week := d.day_of_week
    start_time := d.start_time
    end_time := d.end_time
    instructor := d.instructor
    capacity := d.capacity
    is_active := true }

/-- `.insert(classData)` with a fresh internal id. -/
def newClassRow (i : Nat) (d : ClassData) : ClassRow :=
  { id := i
    vc_class_id := d.vc_class_id
    class_name := d.class_name
    day_of_week := d.day_of_week
    start_time := d.start_time
    end_time := d.end_time
    instructor := d.instructor
    capacity := d.capacity
    is_active := true }

/-- Accumulator of the `for (const row of classRows)` loop. -/
structure ClassSyncState where
  classes : List ClassRow
  idMap : IdMap
  nextId : Nat
  seen : List String
  inserted : Nat
  updated : Nat
deriving DecidableEq

/-- One iteration of the class upsert loop. -/
def classStep (st : ClassSyncState) (row : BQClassRow) : ClassSyncState :=
  let d := mkClassData row
  let st := { st with seen := row.vc_class_id :: st.seen }
  match mapGet st.idMap row.vc_class_id with
  | some i =>
    { st with
      classes := st.classes.map (fun c => if c.id = i then applyClassData c d else c)
      updated := st.updated + 1 }
  | none =>
    { st with
      classes := st.classes ++ [newClassRow st.nextId d]
      idMap := mapSet st.idMap row.vc_class_id st.nextId
      nextId := st.nextId + 1
      inserted := st.inserted + 1 }

/-- Step 3 of the pass, starting from the pre-pass map of existing classes. -/
def runClassSync (s : Store) (classFeed : List BQClassRow) : ClassSyncState :=
  classFeed.foldl classStep
    { classes := s.classes
      idMap := buildClassIdMap s.classes
      nextId := s.nextClassId
      seen := []
      inserted := 0
      updated := 0 }

/-! ## Step 4: deactivate classes no longer in the feed -/

/-- `bqClassIds.has(...)` over the seen set. -/
def seenHas (seen : List String) (v : String) : Bool := seen.contains v

/-- Step 4: for each pre-pass class row whose `vc_class_id` was not seen,
`update({ is_active: false }).eq('id', ...)`. Returns the new table and the
`classesDeactivated` count. -/
def deactivateClasses (current : List ClassRow) (existing : List ClassRow)
    (seen : List String) : List ClassRow × Nat :=
  existing.foldl
    (fun acc ex =>
      if seenHas seen ex.vc_class_id then acc
      else
        (acc.1.map (fun c => if c.id = ex.id then { c with is_active := false } else c),
          acc.2 + 1))
    (current, 0)

/-! ## Step 5: upsert enrollments -/

/-- `enrollmentStatus?.toLowerCase() === 'registered' ? 'registered' : 'enrolled'`. -/
def enrollmentTypeOf (enrollment_status : Option String) : String :=
  match enrollment_status with
  | some s => if String.mk (s.data.map Char.toLower) = "registered" then "registered" else "enrolled"
  | none => "enrolled"

/-- The column values written over a conflicting row by the upsert payload
`{class_id, student_person_id, enrollment_type, source: 'veracross', status: 'active'}`. -/
def upsertWrite (cid sid : Nat) (et : String) (e : EnrollRow) : EnrollRow :=
  { e with
    class_id := cid
    student_person_id := sid
    enrollment_type := some et
    source := "veracross"
    status := "active" }

/-- The conflict-target update of
`.upsert({class_id, student_person_id, enrollment_type, source, status}, {onConflict: 'class_id,student_person_id'})`:
update the first (in the database: unique) row matching the conflict columns with
the supplied column values, or report that none exists. -/
def upsertEnrollList (cid sid : Nat) (et : String) :
    List EnrollRow → Option (List EnrollRow)
  | [] => none
  | e :: rest =>
    if e.class_id = cid ∧ e.student_person_id = sid then
      some (upsertWrite cid sid et e :: rest)
    else (upsertEnrollList cid sid et rest).map (e :: ·)

/-- A freshly inserted enrollment row: supplied columns from the upsert payload,
database defaults elsewhere. -/
def newEnrollRow (i cid sid : Nat) (et : String) : EnrollRow :=
  { id := i
    class_id := cid
    student_person_id := sid
    enrollment_type := some et
    source := "veracross"
    status := "active"
    fee_paid := false
    notes := none
    removal_reason := none
    created_by := none }

/-- Accumulator of the `for (const row of enrollmentRows)` loop. -/
structure EnrollSyncState where
  enrollments : List EnrollRow
  nextId : Nat
  keys : List (Nat × Nat)
  errors : List String
  upserted : Nat
deriving DecidableEq

/-- One iteration of the enrollment upsert loop: resolve the class id via the
map, record an error and skip the row when it is missing, otherwise record the
`(class uuid, student)` key and upsert. -/
def enrollStep (idMap : IdMap) (st : EnrollSyncState) (row : BQEnrollmentRow) :
    EnrollSyncState :=
  match mapGet idMap row.vc_class_id with
  | none =>
    { st with errors := st.errors ++ ["No class found for vc_class_id: " ++ row.vc_class_id] }
  | some cid =>
    let et := enrollmentTypeOf row.enrollment_status
    let st := { st with keys := (cid, row.student_person_id) :: st.keys }
    match upsertEnrollList cid row.student_person_id et st.enrollments with
    | some es => { st with enrollments := es, upserted := st.upserted + 1 }
    | none =>
      { st with
        enrollments := st.enrollments ++ [newEnrollRow st.nextId cid row.student_person_id et]
        nextId := st.nextId + 1
        upserted := st.upserted + 1 }

/-- Step 5 of the pass. -/
def runEnrollSync (idMap : IdMap) (enrollments : List EnrollRow) (nextId : Nat)
    (enrollFeed : List BQEnrollmentRow) : EnrollSyncState :=
  enrollFeed.foldl (enrollStep idMap)
    { enrollments := enrollments
      nextId := nextId
      keys := []
      errors := []
      upserted := 0 }

/-! ## Step 6: deactivate Veracross enrollments no longer present -/

def keysHave (keys : List (Nat × Nat)) (k : Nat × Nat) : Bool := keys.contains k

/-- The deactivation write of step 6 applied to one targeted id. -/
def deactEnroll (e : EnrollRow) : EnrollRow :=
  { e with status := "inactive", removal_reason := some "Removed from Veracross" }

/-- Step 6: select the active Veracross-sourced rows, and for each whose
`(class_id, student_person_id)` key is not among this pass's keys,
`update({status: 'inactive', removal_reason: 'Removed from Veracross'}).eq('id', ...)`. -/
def deactivateEnrollments (es : List EnrollRow) (keys : List (Nat × Nat)) :
    List EnrollRow × Nat :=
  let existing := es.filter (fun e => e.source = "veracross" ∧ e.status = "active")
  existing.foldl
    (fun acc ex =>
      if keysHave keys (ex.class_id, ex.student_person_id) then acc
      else
        (acc.1.map (fun e => if e.id = ex.id then deactEnroll e else e), acc.2 + 1))
    (es, 0)

/-! ## The whole pass (`POST` in `src/app/api/sync-asp-data/route.ts`) -/

/-- The summary counts reported by the route's JSON response and audit row. -/
structure SyncSummary where
  classes_inserted : Nat
  classes_updated : Nat
  classes_deactivated : Nat
  enrollments_upserted : Nat
  enrollments_deactivated : Nat
  errors : List String
deriving DecidableEq

/-- One reconciliation pass over the Entity Store, given the two feed
snapshots and the current instant (`now`, written to `last_vc_sync`). -/
def syncPass (s : Store) (classFeed : List BQClassRow)
    (enrollFeed : List BQEnrollmentRow) (now : Nat) : Store × SyncSummary :=
  let cls := runClassSync s classFeed
  let (classes2, cDeact) := deactivateClasses cls.classes s.classes cls.seen
  let enr := runEnrollSync cls.idMap s.enrollments s.nextEnrollId enrollFeed
  let (enrollments2, eDeact) := deactivateEnrollments enr.enrollments enr.keys
  ({ classes := classes2
     enrollments := enrollments2
     nextClassId := cls.nextId
     nextEnrollId := enr.nextId
     lastSync := now },
   { classes_inserted := cls.inserted
     classes_updated := cls.updated
     classes_deactivated := cDeact
     enrollments_upserted := enr.upserted
     enrollments_deactivated := eDeact
     errors := enr.errors })

/-! ## Roster aggregation

Model of the roster building shared by the daily email
(`src/app/api/send-daily-email/route.ts`) and the class detail view
(`src/app/class/[id]/page.tsx`). `String.prototype.localeCompare` under the
default locale is modelled as comparison of base letters first (lower-cased
code points), with the raw code points as a deterministic tie-break. -/

/-- A row of the `students` table. -/
structure StudentRow where
  id : Nat
  person_id : Nat
  first_name : String
  last_name : String
  grade_level : Nat
deriving DecidableEq

/-- A row of `master_attendance` (the external Veracross attendance feed). -/
structure MasterAttendanceRow where
  person_id : Nat
  student_attendance_status : Nat
  attendance_date : String
deriving DecidableEq

/-- A row of the `attendance` table read by the class detail view. -/
structure AttendanceRow where
  person_id : Nat
  status : String
  date : String
deriving DecidableEq

/-- One student line of a roster (`ClassRoster.students` element in the route). -/
structure RosterStudent where
  name : String
  grade : Nat
  enrollmentType : String
  notes : Option String
  isAbsent : Bool
deriving DecidableEq

/-- One class block of the daily email. -/
structure ClassRoster where
  classId : Nat
  className : String
  dayOfWeek : String
  time : String
  students : List RosterStudent
deriving DecidableEq

def lowerData (s : String) : List Char := s.data.map Char.toLower

/-- Model of `a.localeCompare(b) <= 0` for the default locale: primary strength
compares lower-cased code points, ties broken by the raw code points. -/
def localeLe (a b : String) : Prop :=
  toLex (lowerData a, a.data) ≤ toLex (lowerData b, b.data)

instance (a b : String) : Decidable (localeLe a b) := by
  unfold localeLe; infer_instance

/-- The comparator `(a, b) => a.name.localeCompare(b.name)` used on roster lines. -/
def rosterNameLe (a b : RosterStudent) : Prop := localeLe a.name b.name

instance (a b : RosterStudent) : Decidable (rosterNameLe a b) := by
  unfold rosterNameLe; infer_instance

/-- `new Map(students.map(s => [s.person_id, s])).get(pid)`: later entries win. -/
def studentMapGet (students : List StudentRow) (pid : Nat) : Option StudentRow :=
  students.foldl (fun acc s => if s.person_id = pid then some s else acc) none

/-- Remove the first parenthesised group, as in `.replace(/\([^)]*\)/, '')`. -/
def removeParenGroup : List Char → List Char
  | [] => []
  | '(' :: rest =>
    match rest.dropWhile (· ≠ ')') with
    | ')' :: rest2 => rest2
    | _ => '(' :: removeParenGroup rest
  | c :: rest => c :: removeParenGroup rest

/-- `cs.split(':')`. -/
def splitOnColon : List Char → List (List Char)
  | [] => [[]]
  | c :: cs =>
    if c = ':' then [] :: splitOnColon cs
    else
      match splitOnColon cs with
      | [] => [[c]]
      | p :: ps => (c :: p) :: ps

/-- The display-name computation applied to `class_name` before rendering:
`nameParts = class_name.split(':')`, then either the third part with its first
parenthesised group removed, or the last part, trimmed. -/
def displayClassName (class_name : String) : String :=
  let nameParts := splitOnColon class_name.data
  if nameParts.length > 2 then
    String.mk (trimChars (removeParenGroup (nameParts.getD 2 [])))
  else
    String.mk (trimChars (nameParts.getLastD []))

/-- `formatTime` from the daily-email route: nullable times render as `TBD`. -/
def formatTimeRange (start stop : Option String) : String :=
  let format := fun (t : String) =>
    let h := charsToNat (t.data.takeWhile (· ≠ ':'))
    let m := charsToNat (((t.data.dropWhile (· ≠ ':')).drop 1).takeWhile (· ≠ ':'))
    let period := if h ≥ 12 then "PM" else "AM"
    let hour := if h > 12 then h - 12 else if h = 0 then 12 else h
    String.mk (natToChars hour) ++ ":" ++ String.mk (pad2 m) ++ " " ++ period
  match start, stop with
  | some a, some b => format a ++ " - " ++ format b
  | _, _ => "TBD"

/-- The absent-student set of the daily-email route: `master_attendance` rows
for the queried students on today's date whose status code is 29, 30 or 72. -/
def emailAbsentSet (attendance : List MasterAttendanceRow) (studentIds : List Nat)
    (todayDate : String) : List Nat :=
  (attendance.filter (fun a =>
    studentIds.contains a.person_id ∧ a.attendance_date = todayDate ∧
      (a.student_attendance_status = 29 ∨ a.student_attendance_status = 30 ∨
        a.student_attendance_status = 72))).map (·.person_id)

/-- One roster line built from an enrollment row: placeholder name and grade
when the student id resolves to no `students` row. -/
def rosterEntryOf (students : List StudentRow) (absent : List Nat) (e : EnrollRow) :
    RosterStudent :=
  let student := studentMapGet students e.student_person_id
  { name := match student with
      | some s => s.last_name ++ ", " ++ s.first_name
      | none => "Unknown Student"
    grade := match student with
      | some s => s.grade_level
      | none => 0
    enrollmentType := match e.enrollment_type with
      | some t => if t = "" then "enrolled" else t
      | none => "enrolled"
    notes := e.notes
    isAbsent := absent.contains e.student_person_id }

/-- The classes selected by the daily-email route: active classes meeting on
the target day (kept in store order; the route orders them by `start_time`,
which no property here depends on). -/
def emailActiveClasses (classes : List ClassRow) (targetDay : String) : List ClassRow :=
  classes.filter (fun c => c.day_of_week = targetDay ∧ c.is_active)

/-- The enrollments the route fetches: active rows of the selected classes. -/
def emailEnrollments (classes : List ClassRow) (enrollTable : List EnrollRow)
    (targetDay : String) : List EnrollRow :=
  enrollTable.filter (fun e =>
    ((emailActiveClasses classes targetDay).map (·.id)).contains e.class_id ∧
      e.status = "active")

/-- One class block of the daily email: that class's enrollments turned into
roster lines and sorted by the `localeCompare` comparator on the display name. -/
def emailRosterFor (cls : ClassRow) (enrollments : List EnrollRow)
    (students : List StudentRow) (absent : List Nat) : ClassRoster :=
  let classEnrollments := enrollments.filter (fun e => e.class_id = cls.id)
  let classStudents :=
    (classEnrollments.map (rosterEntryOf students absent)).insertionSort rosterNameLe
  { classId := cls.id
    className := displayClassName cls.class_name
    dayOfWeek := cls.day_of_week
    time := formatTimeRange (some cls.start_time) (some cls.end_time)
    students := classStudents }

/-- The roster-building pipeline of `POST` in
`src/app/api/send-daily-email/route.ts`: today's active classes for the target
day, their active enrollments, student identities, external absences, one
sorted roster per class. -/
def dailyEmailRosters (classes : List ClassRow) (enrollTable : List EnrollRow)
    (students : List StudentRow) (attendance : List MasterAttendanceRow)
    (targetDay todayDate : String) : List ClassRoster :=
  let enrollments := emailEnrollments classes enrollTable targetDay
  let studentIds := enrollments.map (·.student_person_id)
  let absent := emailAbsentSet attendance studentIds todayDate
  (emailActiveClasses classes targetDay).map (fun cls =>
    emailRosterFor cls enrollments students absent)

/-! ## The class detail view (`loadEnrollments` in `src/app/class/[id]/page.tsx`) -/

/-- The absent set of the detail view: `attendance` rows for the roster's
students on today's date whose status is the string `Absent`. -/
def pageAbsentSet (attendance : List AttendanceRow) (studentIds : List Nat)
    (today : String) : List Nat :=
  ((attendance.filter (fun a => studentIds.contains a.person_id ∧ a.date = today)).filter
    (fun a => a.status = "Absent")).map (·.person_id)

/-- The placeholder identity synthesised for a dangling student reference. -/
def placeholderStudent (pid : Nat) : StudentRow :=
  { id := 0, person_id := pid, first_name := "Unknown", last_name := "Student", grade_level := 0 }

/-- The comparator `(a, b) => a.student.last_name.localeCompare(b.student.last_name)`. -/
def pageLastNameLe (a b : EnrollRow × StudentRow) : Prop :=
  localeLe a.2.last_name b.2.last_name

instance (a b : EnrollRow × StudentRow) : Decidable (pageLastNameLe a b) := by
  unfold pageLastNameLe; infer_instance

/-- `loadEnrollments`: active enrollments of the class in creation order,
enriched with the first matching `students` row or a placeholder, sorted by
surname only. -/
def classPageRoster (enrollTable : List EnrollRow) (students : List StudentRow)
    (classId : Nat) : List (EnrollRow × StudentRow) :=
  let enrollmentData := enrollTable.filter (fun e =>
    e.class_id = classId ∧ e.status = "active")
  let enriched := enrollmentData.map (fun e =>
    (e, (students.find? (fun s => s.person_id = e.student_person_id)).getD
          (placeholderStudent e.student_person_id)))
  enriched.insertionSort pageLastNameLe

/-! ## The daily-email handler (`POST` in `src/app/api/send-daily-email/route.ts`)

The handler's control flow, instrumented with which effects were reached:
whether the `asp_classes` query ran and whether the Resend call was made. -/

/-- A row of `asp_users`. -/
structure AspUserRow where
  email : String
  name : Option String
  is_active : Bool
  receives_daily_email : Bool
deriving DecidableEq

def weekdayNames : List String :=
  ["Sunday", "Monday", "Tuesday", "Wednesday", "Thursday", "Friday", "Saturday"]

inductive EmailOutcome where
  | noASPToday
  | noRecipients
  | noClassesOn (targetDay : String)
  | apiKeyMissing (targetDay : String)
  | sent (targetDay : String) (sentTo : List String) (rosters : List ClassRoster)
deriving DecidableEq

/-- Observable effects of one handler invocation. -/
structure EmailEffects where
  queriedClasses : Bool
  emailSent : Bool
  targetDay : Option String
deriving DecidableEq

/-- `POST` of `src/app/api/send-daily-email/route.ts`: weekday gate, test flag,
recipients, classes, roster build, send. -/
def sendDailyEmail (dayIndex : Nat) (isTest : Bool) (users : List AspUserRow)
    (classes : List ClassRow) (enrollTable : List EnrollRow)
    (students : List StudentRow) (attendance : List MasterAttendanceRow)
    (todayDate : String) (hasApiKey : Bool) : EmailOutcome × EmailEffects :=
  let today := weekdayNames.getD dayIndex ""
  if ["Friday", "Saturday", "Sunday"].contains today ∧ ¬isTest then
    (.noASPToday, ⟨false, false, none⟩)
  else
    let targetDay := if isTest then "Monday" else today
    let recipients := users.filter (fun u => u.is_active ∧ u.receives_daily_email)
    if recipients.isEmpty then (.noRecipients, ⟨false, false, some targetDay⟩)
    else if (classes.filter (fun c => c.day_of_week = targetDay ∧ c.is_active)).isEmpty then
      (.noClassesOn targetDay, ⟨true, false, some targetDay⟩)
    else
      let rosters := dailyEmailRosters classes enrollTable students attendance targetDay todayDate
      if ¬hasApiKey then (.apiKeyMissing targetDay, ⟨true, false, some targetDay⟩)
      else (.sent targetDay (recipients.map (·.email)) rosters, ⟨true, true, some targetDay⟩)

/-! ## Well-formedness of a store

The database invariants the proofs rely on: primary-key ids are distinct and
below the id counters. -/

def Store.WF (s : Store) : Prop :=
  (s.classes.map (·.id)).Nodup ∧ (∀ c ∈ s.classes, c.id < s.nextClassId) ∧
  (s.enrollments.map (·.id)).Nodup ∧ (∀ e ∈ s.enrollments, e.id < s.nextEnrollId)

instance (s : Store) : Decidable s.WF := by unfold Store.WF; infer_instance

/-! ## Basic lemmas about the row operations -/

theorem applyClassData_id (c : ClassRow) (d : ClassData) :
    (applyClassData c d).id = c.id := rfl

theorem applyClassData_idem (c : ClassRow) (d : ClassData) :
    applyClassData (applyClassData c d) d = applyClassData c d := rfl

theorem applyClassData_newClassRow (i : Nat) (d : ClassData) :
    applyClassData (newClassRow i d) d = newClassRow i d := rfl

theorem deactEnroll_id (e : EnrollRow) : (deactEnroll e).id = e.id := rfl

theorem deactEnroll_idem (e : EnrollRow) : deactEnroll (deactEnroll e) = deactEnroll e := rfl

theorem setInactive_eq_self (c : ClassRow) (h : c.is_active = false) :
    { c with is_active := false } = c := by
  cases c; simp_all

/-! ## IdMap lemmas -/

theorem mapGet_mapSet_self (m : IdMap) (k : String) (v : Nat) :
    mapGet (mapSet m k v) k = some v := by
  simp [mapGet, mapSet, List.find?]

theorem mapGet_mapSet_ne (m : IdMap) (k k' : String) (v : Nat) (h : k' ≠ k) :
    mapGet (mapSet m k v) k' = mapGet m k' := by
  have : (decide (k = k')) = false := by simp; exact fun h' => h h'.symm
  simp [mapGet, mapSet, List.find?, this]

theorem buildClassIdMap_append (cs : List ClassRow) (c : ClassRow) :
    buildClassIdMap (cs ++ [c]) = mapSet (buildClassIdMap cs) c.vc_class_id c.id := by
  simp [buildClassIdMap, List.foldl_append]

/-- Looking up a hit in the pre-pass map names an actual row. -/
theorem buildClassIdMap_correct (cs : List ClassRow) (v : String) (i : Nat)
    (h : mapGet (buildClassIdMap cs) v = some i) :
    ∃ c ∈ cs, c.id = i ∧ c.vc_class_id = v := by
  induction cs using List.reverseRecOn with
  | nil => simp [buildClassIdMap, mapGet] at h
  | append_singleton cs c ih =>
    rw [buildClassIdMap_append] at h
    by_cases hv : v = c.vc_class_id
    · subst hv
      rw [mapGet_mapSet_self] at h
      exact ⟨c, by simp, Option.some_inj.mp h, rfl⟩
    · rw [mapGet_mapSet_ne _ _ _ _ hv] at h
      obtain ⟨c', hc', hid, hvc⟩ := ih h
      exact ⟨c', by simp [hc'], hid, hvc⟩

/-- A miss in the pre-pass map means no row has that external id. -/
theorem buildClassIdMap_none (cs : List ClassRow) (v : String)
    (h : mapGet (buildClassIdMap cs) v = none) :
    ∀ c ∈ cs, c.vc_class_id ≠ v := by
  induction cs using List.reverseRecOn with
  | nil => simp
  | append_singleton cs c ih =>
    rw [buildClassIdMap_append] at h
    by_cases hv : v = c.vc_class_id
    · subst hv; rw [mapGet_mapSet_self] at h; exact absurd h (by simp)
    · rw [mapGet_mapSet_ne _ _ _ _ hv] at h
      intro c' hc'
      rcases List.mem_append.mp hc' with h' | h'
      · exact ih h c' h'
      · simp at h'; subst h'; exact fun he => hv he.symm

/-- The map only reads ids and external ids, so any row transformation
preserving both (on the rows present) preserves the map. -/
theorem buildClassIdMap_mapMem (cs : List ClassRow) (f : ClassRow → ClassRow)
    (hid : ∀ c ∈ cs, (f c).id = c.id) (hvc : ∀ c ∈ cs, (f c).vc_class_id = c.vc_class_id) :
    buildClassIdMap (cs.map f) = buildClassIdMap cs := by
  induction cs using List.reverseRecOn with
  | nil => rfl
  | append_singleton cs c ih =>
    simp only [List.map_append, List.map_cons, List.map_nil, buildClassIdMap_append]
    rw [hid c (by simp), hvc c (by simp),
      ih (fun c' hc' => hid c' (by simp [hc'])) (fun c' hc' => hvc c' (by simp [hc']))]

/-! ## Characterisation of the two deactivation folds as pointwise maps -/

/-- Both deactivation steps are folds that skip or update-by-id; their list
component is a pointwise map over the current table. -/
theorem foldl_deact_char {α γ : Type _} (p : γ → Bool) (exId : γ → Nat) (aId : α → Nat)
    (upd : α → α) (hUpdId : ∀ a, aId (upd a) = aId a) (hIdem : ∀ a, upd (upd a) = upd a) :
    ∀ (existing : List γ) (cur : List α) (n : Nat),
      (existing.foldl
        (fun acc ex =>
          if p ex then acc
          else (acc.1.map (fun a => if aId a = exId ex then upd a else a), acc.2 + 1))
        (cur, n)).1 =
      cur.map (fun a =>
        if existing.any (fun ex => exId ex == aId a && !p ex) then upd a else a) := by
  intro existing
  induction existing with
  | nil =>
    intro cur n
    simp
  | cons ex rest ih =>
    intro cur n
    by_cases hp : p ex
    · simp only [List.foldl_cons, hp, if_pos]
      rw [ih]
      apply List.map_congr_left
      intro a _
      simp [hp]
    · simp only [List.foldl_cons, hp, if_neg, Bool.false_eq_true, not_false_iff]
      rw [ih, List.map_map]
      apply List.map_congr_left
      intro a _
      simp only [Function.comp]
      by_cases hid : aId a = exId ex
      · have hexa : (exId ex == aId a) = true := by simp [hid]
        rw [if_pos hid]
        simp only [hUpdId, hIdem]
        simp [List.any_cons, hexa, hp, ite_self]
      · have hexa : (exId ex == aId a) = false := by
          simp only [beq_eq_false_iff_ne, ne_eq]
          exact fun h => hid h.symm
        rw [if_neg hid]
        simp [List.any_cons, hexa]

/-- Is id `i` targeted by the class-deactivation pass? -/
def classDeactTargets (existing : List ClassRow) (seen : List String) (i : Nat) : Bool :=
  existing.any (fun ex => ex.id == i && !seenHas seen ex.vc_class_id)

theorem deactivateClasses_fst (existing : List ClassRow) (seen : List String)
    (current : List ClassRow) :
    (deactivateClasses current existing seen).1 =
      current.map (fun c =>
        if classDeactTargets existing seen c.id then { c with is_active := false } else c) := by
  have h := foldl_deact_char (α := ClassRow) (γ := ClassRow)
    (fun ex => seenHas seen ex.vc_class_id) (fun ex => ex.id) (fun c => c.id)
    (fun c => { c with is_active := false }) (fun _ => rfl) (fun _ => rfl)
    existing current 0
  exact h

/-- Is id `i` targeted by the enrollment-deactivation pass? -/
def enrollDeactTargets (existing : List EnrollRow) (keys : List (Nat × Nat)) (i : Nat) : Bool :=
  existing.any (fun ex => ex.id == i && !keysHave keys (ex.class_id, ex.student_person_id))

/-- The snapshot queried by step 6. -/
def activeVeracross (es : List EnrollRow) : List EnrollRow :=
  es.filter (fun e => e.source = "veracross" ∧ e.status = "active")

theorem deactivateEnrollments_fst (es : List EnrollRow) (keys : List (Nat × Nat)) :
    (deactivateEnrollments es keys).1 =
      es.map (fun e =>
        if enrollDeactTargets (activeVeracross es) keys e.id then deactEnroll e else e) := by
  have h := foldl_deact_char (α := EnrollRow) (γ := EnrollRow)
    (fun ex => keysHave keys (ex.class_id, ex.student_person_id)) (fun ex => ex.id)
    (fun e => e.id) deactEnroll (fun _ => rfl) (fun _ => rfl) (activeVeracross es) es 0
  exact h

/-! ## Invariants of the class upsert loop (step 3) -/

/-- Loop invariant of the class upsert loop, relative to the pre-pass table `C0`:
row ids stay distinct and below the fresh-id counter, the id map names actual
rows and agrees with the map one would rebuild from the current table, rows
keep the external id they had in `C0`, every row is original or has a seen
external id, and no row disappears. -/
structure ClassInv (C0 : List ClassRow) (st : ClassSyncState) : Prop where
  nodup : (st.classes.map (·.id)).Nodup
  bound : ∀ c ∈ st.classes, c.id < st.nextId
  mapCorrect : ∀ v i, mapGet st.idMap v = some i →
    ∃ c ∈ st.classes, c.id = i ∧ c.vc_class_id = v
  mapAgree : ∀ v, mapGet st.idMap v = mapGet (buildClassIdMap st.classes) v
  vcStable : ∀ c ∈ st.classes, ∀ ex ∈ C0, ex.id = c.id → c.vc_class_id = ex.vc_class_id
  origin : ∀ c ∈ st.classes, c ∈ C0 ∨ c.vc_class_id ∈ st.seen
  survive : ∀ ex ∈ C0, ∃ c ∈ st.classes, c.id = ex.id

theorem classInv_init (s : Store) (h1 : (s.classes.map (·.id)).Nodup)
    (h2 : ∀ c ∈ s.classes, c.id < s.nextClassId) :
    ClassInv s.classes
      { classes := s.classes, idMap := buildClassIdMap s.classes, nextId := s.nextClassId,
        seen := [], inserted := 0, updated := 0 } where
  nodup := h1
  bound := h2
  mapCorrect := buildClassIdMap_correct s.classes
  mapAgree _ := rfl
  vcStable c hc ex hex hid := by
    have : ex = c := List.inj_on_of_nodup_map h1 hex hc hid
    rw [this]
  origin c hc := Or.inl hc
  survive ex hex := ⟨ex, hex, rfl⟩

/-- Unfolding equation of `classStep` in the update branch. -/
theorem classStep_update_eq (st : ClassSyncState) (r : BQClassRow) (i : Nat)
    (h : mapGet st.idMap r.vc_class_id = some i) :
    classStep st r =
      { st with
        classes := st.classes.map (fun c => if c.id = i then applyClassData c (mkClassData r) else c)
        seen := r.vc_class_id :: st.seen
        updated := st.updated + 1 } := by
  unfold classStep
  simp only [h]

/-- Unfolding equation of `classStep` in the insert branch. -/
theorem classStep_insert_eq (st : ClassSyncState) (r : BQClassRow)
    (h : mapGet st.idMap r.vc_class_id = none) :
    classStep st r =
      { st with
        classes := st.classes ++ [newClassRow st.nextId (mkClassData r)]
        idMap := mapSet st.idMap r.vc_class_id st.nextId
        nextId := st.nextId + 1
        seen := r.vc_class_id :: st.seen
        inserted := st.inserted + 1 } := by
  unfold classStep
  simp only [h]

/-- In the update branch, the targeted row already carries the feed row's
external id, so no row's external id changes. -/
theorem classStep_update_vc (C0 : List ClassRow) (st : ClassSyncState)
    (inv : ClassInv C0 st) (r : BQClassRow) (i : Nat)
    (hget : mapGet st.idMap r.vc_class_id = some i) (c : ClassRow) (hc : c ∈ st.classes) :
    (if c.id = i then applyClassData c (mkClassData r) else c).vc_class_id = c.vc_class_id := by
  by_cases hid : c.id = i
  · obtain ⟨c', hc', hcid, hcvc⟩ := inv.mapCorrect _ _ hget
    have : c' = c := List.inj_on_of_nodup_map inv.nodup hc' hc (by rw [hcid, hid])
    subst this
    simp [hid, applyClassData, mkClassData, ← hcvc]
  · simp [hid]

theorem classInv_step (C0 : List ClassRow) (st : ClassSyncState) (r : BQClassRow)
    (inv : ClassInv C0 st) : ClassInv C0 (classStep st r) := by
  cases hget : mapGet st.idMap r.vc_class_id with
  | some i =>
    rw [classStep_update_eq st r i hget]
    have hidmap : ∀ c ∈ st.classes,
        (if c.id = i then applyClassData c (mkClassData r) else c).id = c.id := by
      intro c _; by_cases h : c.id = i <;> simp [h, applyClassData]
    have hvc := classStep_update_vc C0 st inv r i hget
    have hids : (st.classes.map
        (fun c => if c.id = i then applyClassData c (mkClassData r) else c)).map (·.id) =
        st.classes.map (·.id) := by
      rw [List.map_map]
      exact List.map_congr_left (fun c hc => hidmap c hc)
    refine ⟨?_, ?_, ?_, ?_, ?_, ?_, ?_⟩
    · rw [hids]; exact inv.nodup
    · intro c hc
      obtain ⟨c0, hc0, rfl⟩ := List.mem_map.mp hc
      rw [hidmap c0 hc0]
      exact inv.bound c0 hc0
    · intro v j hj
      obtain ⟨c0, hc0, hcid, hcvc⟩ := inv.mapCorrect v j hj
      refine ⟨_, List.mem_map_of_mem _ hc0, ?_, ?_⟩
      · rw [hidmap c0 hc0]; exact hcid
      · rw [hvc c0 hc0]; exact hcvc
    · intro v
      rw [inv.mapAgree v]
      rw [buildClassIdMap_mapMem st.classes _ hidmap hvc]
    · intro c hc ex hex hid
      obtain ⟨c0, hc0, rfl⟩ := List.mem_map.mp hc
      rw [hvc c0 hc0]
      exact inv.vcStable c0 hc0 ex hex (by rw [hid, hidmap c0 hc0])
    · intro c hc
      obtain ⟨c0, hc0, rfl⟩ := List.mem_map.mp hc
      by_cases h : c0.id = i
      · right
        obtain ⟨c', hc', hcid, hcvc⟩ := inv.mapCorrect _ _ hget
        have : c' = c0 := List.inj_on_of_nodup_map inv.nodup hc' hc0 (by rw [hcid, h])
        subst this
        rw [hvc c' hc0, hcvc]
        exact List.mem_cons_self _ _
      · rcases inv.origin c0 hc0 with h0 | h0
        · left; simpa [h] using h0
        · right; simp only [h, if_neg, not_false_iff]; exact List.mem_cons_of_mem _ h0
    · intro ex hex
      obtain ⟨c0, hc0, hcid⟩ := inv.survive ex hex
      exact ⟨_, List.mem_map_of_mem _ hc0, by rw [hidmap c0 hc0]; exact hcid⟩
  | none =>
    rw [classStep_insert_eq st r hget]
    have hnotin : ∀ c ∈ st.classes, c.id ≠ st.nextId := by
      intro c hc
      exact Nat.ne_of_lt (inv.bound c hc)
    refine ⟨?_, ?_, ?_, ?_, ?_, ?_, ?_⟩
    · simp only [List.map_append, List.map_cons, List.map_nil]
      rw [List.nodup_append]
      refine ⟨inv.nodup, List.nodup_singleton _, ?_⟩
      intro x hx
      simp only [List.mem_singleton]
      obtain ⟨c, hc, rfl⟩ := List.mem_map.mp hx
      exact hnotin c hc
    · intro c hc
      rcases List.mem_append.mp hc with h | h
      · exact Nat.lt_succ_of_lt (inv.bound c h)
      · simp at h; subst h; exact Nat.lt_succ_self _
    · intro v j hj
      by_cases hv : v = r.vc_class_id
      · subst hv
        rw [mapGet_mapSet_self] at hj
        refine ⟨newClassRow st.nextId (mkClassData r), by simp, ?_, ?_⟩
        · exact Option.some_inj.mp hj
        · simp [newClassRow, mkClassData]
      · rw [mapGet_mapSet_ne _ _ _ _ hv] at hj
        obtain ⟨c, hc, hcid, hcvc⟩ := inv.mapCorrect v j hj
        exact ⟨c, List.mem_append_left _ hc, hcid, hcvc⟩
    · intro v
      rw [buildClassIdMap_append]
      by_cases hv : v = r.vc_class_id
      · subst hv
        rw [mapGet_mapSet_self]
        have : (newClassRow st.nextId (mkClassData r)).vc_class_id = r.vc_class_id := by
          simp [newClassRow, mkClassData]
        rw [this, mapGet_mapSet_self]
        rfl
      · have : (newClassRow st.nextId (mkClassData r)).vc_class_id = r.vc_class_id := by
          simp [newClassRow, mkClassData]
        rw [mapGet_mapSet_ne _ _ _ _ hv, this, mapGet_mapSet_ne _ _ _ _ hv]
        exact inv.mapAgree v
    · intro c hc ex hex hid
      rcases List.mem_append.mp hc with h | h
      · exact inv.vcStable c h ex hex hid
      · simp at h; subst h
        exfalso
        obtain ⟨c', hc', hcid⟩ := inv.survive ex hex
        have : c'.id < st.nextId := inv.bound c' hc'
        simp only [newClassRow] at hid
        omega
    · intro c hc
      rcases List.mem_append.mp hc with h | h
      · rcases inv.origin c h with h0 | h0
        · exact Or.inl h0
        · exact Or.inr (List.mem_cons_of_mem _ h0)
      · simp at h; subst h
        right
        have : (newClassRow st.nextId (mkClassData r)).vc_class_id = r.vc_class_id := by
          simp [newClassRow, mkClassData]
        rw [this]
        exact List.mem_cons_self _ _
    · intro ex hex
      obtain ⟨c, hc, hcid⟩ := inv.survive ex hex
      exact ⟨c, List.mem_append_left _ hc, hcid⟩

end ASP

namespace ASP

/-! ## Fixed points of the class upsert loop -/

/-- Feed row `r` is "settled" in map `M` and table `C`: its external id resolves,
and every row carrying the resolved id is unchanged by re-applying `r`'s data. -/
def FixedFor (M : IdMap) (C : List ClassRow) (r : BQClassRow) : Prop :=
  ∃ i, mapGet M r.vc_class_id = some i ∧
    ∀ c ∈ C, c.id = i → c = applyClassData c (mkClassData r)

/-- After processing `r`, `r` is settled. -/
theorem fixedFor_step_self (C0 : List ClassRow) (st : ClassSyncState) (r : BQClassRow)
    (inv : ClassInv C0 st) :
    FixedFor (classStep st r).idMap (classStep st r).classes r := by
  cases hget : mapGet st.idMap r.vc_class_id with
  | some i =>
    rw [classStep_update_eq st r i hget]
    refine ⟨i, hget, ?_⟩
    intro c hc hcid
    obtain ⟨c0, hc0, rfl⟩ := List.mem_map.mp hc
    by_cases h : c0.id = i
    · simp only [h, if_pos, applyClassData_idem]
    · exfalso
      simp only [h, if_neg, not_false_iff] at hcid
  | none =>
    rw [classStep_insert_eq st r hget]
    refine ⟨st.nextId, ?_, ?_⟩
    · exact mapGet_mapSet_self _ _ _
    · intro c hc hcid
      rcases List.mem_append.mp hc with h | h
      · exact absurd hcid (Nat.ne_of_lt (inv.bound c h))
      · simp at h; subst h
        exact (applyClassData_newClassRow _ _).symm

/-- Processing a feed row with a different external id keeps `r` settled. -/
theorem fixedFor_step_preserve (C0 : List ClassRow) (st : ClassSyncState)
    (r' r : BQClassRow) (inv : ClassInv C0 st)
    (hne : r'.vc_class_id ≠ r.vc_class_id)
    (h : FixedFor st.idMap st.classes r) :
    FixedFor (classStep st r').idMap (classStep st r').classes r := by
  obtain ⟨i, hget, hfix⟩ := h
  cases hget' : mapGet st.idMap r'.vc_class_id with
  | some i' =>
    rw [classStep_update_eq st r' i' hget']
    have hii : i' ≠ i := by
      intro hcontra
      subst hcontra
      obtain ⟨c1, hc1, hcid1, hvc1⟩ := inv.mapCorrect _ _ hget
      obtain ⟨c2, hc2, hcid2, hvc2⟩ := inv.mapCorrect _ _ hget'
      have : c2 = c1 := List.inj_on_of_nodup_map inv.nodup hc2 hc1 (by rw [hcid1, hcid2])
      subst this
      exact hne (hvc2.symm.trans hvc1)
    refine ⟨i, hget, ?_⟩
    intro c hc hcid
    obtain ⟨c0, hc0, rfl⟩ := List.mem_map.mp hc
    by_cases hcase : c0.id = i'
    · exfalso
      simp only [hcase, if_pos] at hcid
      rw [applyClassData_id] at hcid
      exact hii (hcase ▸ hcid)
    · simp only [hcase, if_neg, not_false_iff] at hcid ⊢
      exact hfix c0 hc0 hcid
  | none =>
    rw [classStep_insert_eq st r' hget']
    refine ⟨i, ?_, ?_⟩
    · show mapGet (mapSet st.idMap r'.vc_class_id st.nextId) r.vc_class_id = some i
      rw [mapGet_mapSet_ne _ _ _ _ (Ne.symm hne)]; exact hget
    · intro c hc hcid
      rcases List.mem_append.mp hc with hmem | hmem
      · exact hfix c hmem hcid
      · simp at hmem; subst hmem
        exfalso
        obtain ⟨c1, hc1, hcid1, _⟩ := inv.mapCorrect _ _ hget
        have : c1.id < st.nextId := inv.bound c1 hc1
        simp only [newClassRow] at hcid
        omega

theorem classInv_foldl (C0 : List ClassRow) (feed : List BQClassRow) :
    ∀ st, ClassInv C0 st → ClassInv C0 (feed.foldl classStep st) := by
  induction feed with
  | nil => intro st inv; exact inv
  | cons r rest ih =>
    intro st inv
    exact ih _ (classInv_step C0 st r inv)

theorem fixedFor_foldl_preserve (C0 : List ClassRow) (r : BQClassRow)
    (feed : List BQClassRow) :
    ∀ st, ClassInv C0 st → (∀ r' ∈ feed, r'.vc_class_id ≠ r.vc_class_id) →
      FixedFor st.idMap st.classes r →
      FixedFor (feed.foldl classStep st).idMap (feed.foldl classStep st).classes r := by
  induction feed with
  | nil => intro st _ _ h; exact h
  | cons r' rest ih =>
    intro st inv hne h
    exact ih _ (classInv_step C0 st r' inv)
      (fun x hx => hne x (List.mem_cons_of_mem _ hx))
      (fixedFor_step_preserve C0 st r' r inv (hne r' (List.mem_cons_self _ _)) h)

/-- After the whole loop over a feed with distinct external ids, every feed row
is settled. -/
theorem fixedFor_foldl (C0 : List ClassRow) (feed : List BQClassRow) :
    ∀ st, ClassInv C0 st → (feed.map (·.vc_class_id)).Nodup →
      ∀ r ∈ feed, FixedFor (feed.foldl classStep st).idMap (feed.foldl classStep st).classes r := by
  induction feed with
  | nil => intro st _ _ r hr; exact absurd hr (List.not_mem_nil r)
  | cons r0 rest ih =>
    intro st inv hnodup r hr
    simp only [List.map_cons, List.nodup_cons] at hnodup
    rcases List.mem_cons.mp hr with rfl | hmem
    · exact fixedFor_foldl_preserve C0 r rest _ (classInv_step C0 st r inv)
        (fun r' hr' hcontra => hnodup.1 (hcontra ▸ List.mem_map_of_mem _ hr'))
        (fixedFor_step_self C0 st r inv)
    · exact ih _ (classInv_step C0 st r0 inv) hnodup.2 r hmem

/-- The seen set after the loop is the initial seen set plus the feed's
external ids. -/
theorem seen_foldl (feed : List BQClassRow) :
    ∀ st v, (v ∈ (feed.foldl classStep st).seen ↔ v ∈ st.seen ∨ ∃ r ∈ feed, r.vc_class_id = v) := by
  induction feed with
  | nil => intro st v; simp
  | cons r rest ih =>
    intro st v
    have hstep : (classStep st r).seen = r.vc_class_id :: st.seen := by
      cases hget : mapGet st.idMap r.vc_class_id with
      | some i => rw [classStep_update_eq st r i hget]
      | none => rw [classStep_insert_eq st r hget]
    rw [List.foldl_cons, ih (classStep st r) v, hstep]
    constructor
    · rintro (h | h)
      · rcases List.mem_cons.mp h with h | h
        · exact Or.inr ⟨r, List.mem_cons_self _ _, h.symm⟩
        · exact Or.inl h
      · obtain ⟨r', hr', hv⟩ := h
        exact Or.inr ⟨r', List.mem_cons_of_mem _ hr', hv⟩
    · rintro (h | ⟨r', hr', hv⟩)
      · exact Or.inl (List.mem_cons_of_mem _ h)
      · rcases List.mem_cons.mp hr' with rfl | hmem
        · exact Or.inl (hv ▸ List.mem_cons_self _ _)
        · exact Or.inr ⟨r', hmem, hv⟩

/-- The loop never shrinks the id map: old hits stay hits. -/
theorem mapGet_foldl_mono (feed : List BQClassRow) :
    ∀ st v i, mapGet st.idMap v = some i →
      mapGet (feed.foldl classStep st).idMap v = some i := by
  induction feed with
  | nil => intro st v i h; exact h
  | cons r rest ih =>
    intro st v i h
    apply ih
    cases hget : mapGet st.idMap r.vc_class_id with
    | some j => rw [classStep_update_eq st r j hget]; exact h
    | none =>
      rw [classStep_insert_eq st r hget]
      simp only
      by_cases hv : v = r.vc_class_id
      · subst hv; rw [h] at hget; exact absurd hget (by simp)
      · rw [mapGet_mapSet_ne _ _ _ _ hv]; exact h

end ASP

namespace ASP

/-! ## Lemmas about the enrollment upsert (step 5) -/

/-- Resolution of one feed enrollment row through the id map. -/
def resolveEnroll (M : IdMap) (r : BQEnrollmentRow) : Option (Nat × Nat) :=
  (mapGet M r.vc_class_id).map (fun cid => (cid, r.student_person_id))

/-- The row-level error message of step 5. -/
def enrollErrOf (M : IdMap) (r : BQEnrollmentRow) : Option String :=
  match mapGet M r.vc_class_id with
  | none => some ("No class found for vc_class_id: " ++ r.vc_class_id)
  | some _ => none


theorem upsertWrite_id (cid sid : Nat) (et : String) (e : EnrollRow) :
    (upsertWrite cid sid et e).id = e.id := rfl

theorem upsertWrite_idem (cid sid : Nat) (et : String) (e : EnrollRow) :
    upsertWrite cid sid et (upsertWrite cid sid et e) = upsertWrite cid sid et e := rfl

theorem upsertEnrollList_none_iff (cid sid : Nat) (et : String) (es : List EnrollRow) :
    upsertEnrollList cid sid et es = none ↔
      ∀ e ∈ es, ¬(e.class_id = cid ∧ e.student_person_id = sid) := by
  induction es with
  | nil => simp [upsertEnrollList]
  | cons e rest ih =>
    simp only [upsertEnrollList]
    by_cases hm : e.class_id = cid ∧ e.student_person_id = sid
    · rw [if_pos hm]
      constructor
      · intro h; exact absurd h (by simp)
      · intro h; exact absurd hm (h e (List.mem_cons_self _ _))
    · rw [if_neg hm, Option.map_eq_none', ih]
      constructor
      · intro hall e' he'
        rcases List.mem_cons.mp he' with rfl | hmem
        · exact hm
        · exact hall e' hmem
      · intro hall e' he'
        exact hall e' (List.mem_cons_of_mem _ he')

theorem upsertEnrollList_ids (cid sid : Nat) (et : String) :
    ∀ es es', upsertEnrollList cid sid et es = some es' →
      es'.map (·.id) = es.map (·.id) := by
  intro es
  induction es with
  | nil => intro es' h; simp [upsertEnrollList] at h
  | cons e rest ih =>
    intro es' h
    simp only [upsertEnrollList] at h
    by_cases hm : e.class_id = cid ∧ e.student_person_id = sid
    · rw [if_pos hm] at h
      replace h := Option.some_inj.mp h
      subst h
      simp [upsertWrite_id]
    · rw [if_neg hm, Option.map_eq_some'] at h
      obtain ⟨rest', hrest, heq⟩ := h
      subst heq
      simp only [List.map_cons]
      rw [ih rest' hrest]

theorem upsertEnrollList_frame (cid sid : Nat) (et : String) :
    ∀ es es', upsertEnrollList cid sid et es = some es' →
      ∀ e ∈ es, ¬(e.class_id = cid ∧ e.student_person_id = sid) → e ∈ es' := by
  intro es
  induction es with
  | nil => intro es' h; simp [upsertEnrollList] at h
  | cons e0 rest ih =>
    intro es' h e he hne
    simp only [upsertEnrollList] at h
    by_cases hm : e0.class_id = cid ∧ e0.student_person_id = sid
    · rw [if_pos hm] at h
      replace h := Option.some_inj.mp h
      subst h
      rcases List.mem_cons.mp he with rfl | hmem
      · exact absurd hm hne
      · exact List.mem_cons_of_mem _ hmem
    · rw [if_neg hm, Option.map_eq_some'] at h
      obtain ⟨rest', hrest, heq⟩ := h
      subst heq
      rcases List.mem_cons.mp he with rfl | hmem
      · exact List.mem_cons_self _ _
      · exact List.mem_cons_of_mem _ (ih rest' hrest e hmem hne)

/-! ### "First key row is fixed": the upsert finds its target and rewrites it
to its current value. -/

/-- `FKF es cid sid et`: upserting `(cid, sid, et)` into `es` finds an existing
row and leaves the table unchanged. -/
def FKF (es : List EnrollRow) (cid sid : Nat) (et : String) : Prop :=
  upsertEnrollList cid sid et es = some es

theorem fkf_after_update (cid sid : Nat) (et : String) :
    ∀ es es', upsertEnrollList cid sid et es = some es' → FKF es' cid sid et := by
  intro es
  induction es with
  | nil => intro es' h; simp [upsertEnrollList] at h
  | cons e rest ih =>
    intro es' h
    simp only [upsertEnrollList] at h
    by_cases hm : e.class_id = cid ∧ e.student_person_id = sid
    · rw [if_pos hm] at h
      replace h := Option.some_inj.mp h
      subst h
      show upsertEnrollList cid sid et (upsertWrite cid sid et e :: rest) = _
      simp only [upsertEnrollList]
      rw [if_pos ⟨rfl, rfl⟩, upsertWrite_idem]
    · rw [if_neg hm, Option.map_eq_some'] at h
      obtain ⟨rest', hrest, heq⟩ := h
      subst heq
      show upsertEnrollList cid sid et (e :: rest') = _
      simp only [upsertEnrollList]
      rw [if_neg hm, ih rest' hrest]
      rfl

theorem fkf_after_insert (i cid sid : Nat) (et : String) (es : List EnrollRow)
    (h : upsertEnrollList cid sid et es = none) :
    FKF (es ++ [newEnrollRow i cid sid et]) cid sid et := by
  rw [upsertEnrollList_none_iff] at h
  induction es with
  | nil =>
    show upsertEnrollList cid sid et ([] ++ [newEnrollRow i cid sid et]) = _
    simp only [List.nil_append, upsertEnrollList]
    rw [if_pos ⟨rfl, rfl⟩]
    rfl
  | cons e rest ih =>
    have hne := h e (List.mem_cons_self _ _)
    show upsertEnrollList cid sid et ((e :: rest) ++ [newEnrollRow i cid sid et]) = _
    rw [List.cons_append]
    simp only [upsertEnrollList]
    rw [if_neg hne, ih (fun e' he' => h e' (List.mem_cons_of_mem _ he'))]
    rfl

theorem fkf_append (cid sid : Nat) (et : String) (l : List EnrollRow) :
    ∀ es, FKF es cid sid et → FKF (es ++ l) cid sid et := by
  intro es
  induction es with
  | nil => intro h; simp [FKF, upsertEnrollList] at h
  | cons e rest ih =>
    intro h
    unfold FKF at h ⊢
    simp only [upsertEnrollList] at h
    rw [List.cons_append]
    simp only [upsertEnrollList]
    by_cases hm : e.class_id = cid ∧ e.student_person_id = sid
    · rw [if_pos hm] at h ⊢
      replace h := Option.some_inj.mp h
      have h1 : upsertWrite cid sid et e = e := (List.cons.injEq _ _ _ _).mp h |>.1
      rw [h1]
    · rw [if_neg hm] at h ⊢
      rw [Option.map_eq_some'] at h
      obtain ⟨rest', hrest, heq⟩ := h
      have h2 : rest' = rest := (List.cons.injEq _ _ _ _).mp heq |>.2
      subst h2
      rw [ih hrest]
      rfl

theorem fkf_other_key (cid sid cid' sid' : Nat) (et et' : String)
    (hne : (cid', sid') ≠ (cid, sid)) :
    ∀ es es2, upsertEnrollList cid' sid' et' es = some es2 →
      FKF es cid sid et → FKF es2 cid sid et := by
  intro es
  induction es with
  | nil => intro es2 h _; simp [upsertEnrollList] at h
  | cons e rest ih =>
    intro es2 h hf
    simp only [upsertEnrollList] at h
    by_cases hm' : e.class_id = cid' ∧ e.student_person_id = sid'
    · rw [if_pos hm'] at h
      replace h := Option.some_inj.mp h
      subst h
      have hmk : ¬(e.class_id = cid ∧ e.student_person_id = sid) := by
        intro hk
        apply hne
        rw [← hm'.1, ← hm'.2, ← hk.1, ← hk.2]
      unfold FKF at hf ⊢
      simp only [upsertEnrollList] at hf
      rw [if_neg hmk, Option.map_eq_some'] at hf
      obtain ⟨rest', hrest, heq⟩ := hf
      have h2 : rest' = rest := (List.cons.injEq _ _ _ _).mp heq |>.2
      subst h2
      have hmk2 : ¬((upsertWrite cid' sid' et' e).class_id = cid ∧
          (upsertWrite cid' sid' et' e).student_person_id = sid) := by
        intro hk
        apply hne
        have h1 : cid' = cid := hk.1
        have h2 : sid' = sid := hk.2
        rw [h1, h2]
      simp only [upsertEnrollList]
      rw [if_neg hmk2, hrest]
      rfl
    · rw [if_neg hm', Option.map_eq_some'] at h
      obtain ⟨rest2, hrest2, heq⟩ := h
      subst heq
      unfold FKF at hf ⊢
      simp only [upsertEnrollList] at hf ⊢
      by_cases hm : e.class_id = cid ∧ e.student_person_id = sid
      · rw [if_pos hm] at hf ⊢
        replace hf := Option.some_inj.mp hf
        have h1 : upsertWrite cid sid et e = e := (List.cons.injEq _ _ _ _).mp hf |>.1
        rw [h1]
      · rw [if_neg hm] at hf ⊢
        rw [Option.map_eq_some'] at hf
        obtain ⟨rest', hrest', heq'⟩ := hf
        have h2 : rest' = rest := (List.cons.injEq _ _ _ _).mp heq' |>.2
        subst h2
        rw [ih rest2 hrest2 hrest']
        rfl

/-- `FKF` survives any row map that preserves the conflict columns and fixes
the rows matching the key. -/
theorem fkf_map (cid sid : Nat) (et : String) (f : EnrollRow → EnrollRow)
    (hkey : ∀ e, (f e).class_id = e.class_id ∧ (f e).student_person_id = e.student_person_id) :
    ∀ es, FKF es cid sid et →
      (∀ e ∈ es, e.class_id = cid ∧ e.student_person_id = sid → f e = e) →
      FKF (es.map f) cid sid et := by
  intro es
  induction es with
  | nil => intro h _; simp [FKF, upsertEnrollList] at h
  | cons e rest ih =>
    intro h hfix
    unfold FKF at h ⊢
    simp only [upsertEnrollList, List.map_cons] at h ⊢
    by_cases hm : e.class_id = cid ∧ e.student_person_id = sid
    · rw [if_pos hm] at h
      replace h := Option.some_inj.mp h
      have h1 : upsertWrite cid sid et e = e := (List.cons.injEq _ _ _ _).mp h |>.1
      have hfe : f e = e := hfix e (List.mem_cons_self _ _) hm
      rw [hfe, if_pos hm, h1]
    · rw [if_neg hm] at h
      rw [Option.map_eq_some'] at h
      obtain ⟨rest', hrest, heq⟩ := h
      have h2 : rest' = rest := (List.cons.injEq _ _ _ _).mp heq |>.2
      subst h2
      have hmf : ¬((f e).class_id = cid ∧ (f e).student_person_id = sid) := by
        intro hk
        exact hm ⟨(hkey e).1 ▸ hk.1, (hkey e).2 ▸ hk.2⟩
      rw [if_neg hmf,
        ih hrest (fun e' he' hk => hfix e' (List.mem_cons_of_mem _ he') hk)]
      rfl

end ASP

namespace ASP

/-! ## The enrollment loop: step equations and fold characterisations -/

theorem enrollStep_error_eq (M : IdMap) (st : EnrollSyncState) (r : BQEnrollmentRow)
    (h : mapGet M r.vc_class_id = none) :
    enrollStep M st r =
      { st with errors := st.errors ++ ["No class found for vc_class_id: " ++ r.vc_class_id] } := by
  unfold enrollStep
  simp only [h]

theorem enrollStep_update_eq (M : IdMap) (st : EnrollSyncState) (r : BQEnrollmentRow)
    (cid : Nat) (h : mapGet M r.vc_class_id = some cid) (es' : List EnrollRow)
    (hup : upsertEnrollList cid r.student_person_id
      (enrollmentTypeOf r.enrollment_status) st.enrollments = some es') :
    enrollStep M st r =
      { st with
        keys := (cid, r.student_person_id) :: st.keys
        enrollments := es'
        upserted := st.upserted + 1 } := by
  unfold enrollStep
  simp only [h, hup]

theorem enrollStep_insert_eq (M : IdMap) (st : EnrollSyncState) (r : BQEnrollmentRow)
    (cid : Nat) (h : mapGet M r.vc_class_id = some cid)
    (hup : upsertEnrollList cid r.student_person_id
      (enrollmentTypeOf r.enrollment_status) st.enrollments = none) :
    enrollStep M st r =
      { st with
        keys := (cid, r.student_person_id) :: st.keys
        enrollments := st.enrollments ++
          [newEnrollRow st.nextId cid r.student_person_id (enrollmentTypeOf r.enrollment_status)]
        nextId := st.nextId + 1
        upserted := st.upserted + 1 } := by
  unfold enrollStep
  simp only [h, hup]

/-- The keys set after the loop: the resolved keys of the feed, most recent first. -/
theorem enroll_keys_foldl (M : IdMap) (feed : List BQEnrollmentRow) :
    ∀ st, (feed.foldl (enrollStep M) st).keys =
      (feed.filterMap (resolveEnroll M)).reverse ++ st.keys := by
  induction feed with
  | nil => intro st; simp
  | cons r rest ih =>
    intro st
    rw [List.foldl_cons, ih]
    cases hget : mapGet M r.vc_class_id with
    | none =>
      rw [enrollStep_error_eq M st r hget]
      simp [List.filterMap_cons, resolveEnroll, hget]
    | some cid =>
      have hres : resolveEnroll M r = some (cid, r.student_person_id) := by
        simp [resolveEnroll, hget]
      cases hup : upsertEnrollList cid r.student_person_id
          (enrollmentTypeOf r.enrollment_status) st.enrollments with
      | some es' =>
        rw [enrollStep_update_eq M st r cid hget es' hup]
        simp [List.filterMap_cons, hres]
      | none =>
        rw [enrollStep_insert_eq M st r cid hget hup]
        simp [List.filterMap_cons, hres]

/-- The error list after the loop: one message per unresolvable feed row, in
feed order. -/
theorem enroll_errors_foldl (M : IdMap) (feed : List BQEnrollmentRow) :
    ∀ st, (feed.foldl (enrollStep M) st).errors =
      st.errors ++ feed.filterMap (enrollErrOf M) := by
  induction feed with
  | nil => intro st; simp
  | cons r rest ih =>
    intro st
    rw [List.foldl_cons, ih]
    cases hget : mapGet M r.vc_class_id with
    | none =>
      rw [enrollStep_error_eq M st r hget]
      simp [List.filterMap_cons, enrollErrOf, hget]
    | some cid =>
      have herr : enrollErrOf M r = none := by simp [enrollErrOf, hget]
      cases hup : upsertEnrollList cid r.student_person_id
          (enrollmentTypeOf r.enrollment_status) st.enrollments with
      | some es' =>
        rw [enrollStep_update_eq M st r cid hget es' hup]
        simp [List.filterMap_cons, herr]
      | none =>
        rw [enrollStep_insert_eq M st r cid hget hup]
        simp [List.filterMap_cons, herr]

/-- The upserted count after the loop: one per resolvable feed row. -/
theorem enroll_upserted_foldl (M : IdMap) (feed : List BQEnrollmentRow) :
    ∀ st, (feed.foldl (enrollStep M) st).upserted =
      st.upserted + feed.countP (fun r => (mapGet M r.vc_class_id).isSome) := by
  induction feed with
  | nil => intro st; simp
  | cons r rest ih =>
    intro st
    rw [List.foldl_cons, ih]
    cases hget : mapGet M r.vc_class_id with
    | none =>
      rw [enrollStep_error_eq M st r hget]
      simp [List.countP_cons, hget]
    | some cid =>
      cases hup : upsertEnrollList cid r.student_person_id
          (enrollmentTypeOf r.enrollment_status) st.enrollments with
      | some es' =>
        rw [enrollStep_update_eq M st r cid hget es' hup]
        simp [List.countP_cons, hget]
        omega
      | none =>
        rw [enrollStep_insert_eq M st r cid hget hup]
        simp [List.countP_cons, hget]
        omega

/-- Rows whose key is never resolved from the feed survive the loop untouched. -/
theorem enroll_frame_foldl (M : IdMap) (feed : List BQEnrollmentRow) :
    ∀ st e, e ∈ st.enrollments →
      (∀ r ∈ feed, resolveEnroll M r ≠ some (e.class_id, e.student_person_id)) →
      e ∈ (feed.foldl (enrollStep M) st).enrollments := by
  induction feed with
  | nil => intro st e he _; exact he
  | cons r rest ih =>
    intro st e he hne
    rw [List.foldl_cons]
    apply ih
    · cases hget : mapGet M r.vc_class_id with
      | none => rw [enrollStep_error_eq M st r hget]; exact he
      | some cid =>
        have hres : resolveEnroll M r = some (cid, r.student_person_id) := by
          simp [resolveEnroll, hget]
        have hkey : ¬(e.class_id = cid ∧ e.student_person_id = r.student_person_id) := by
          intro hk
          apply hne r (List.mem_cons_self _ _)
          rw [hres, hk.1, hk.2]
        cases hup : upsertEnrollList cid r.student_person_id
            (enrollmentTypeOf r.enrollment_status) st.enrollments with
        | some es' =>
          rw [enrollStep_update_eq M st r cid hget es' hup]
          exact upsertEnrollList_frame _ _ _ _ _ hup e he hkey
        | none =>
          rw [enrollStep_insert_eq M st r cid hget hup]
          exact List.mem_append_left _ he
    · exact fun r' hr' => hne r' (List.mem_cons_of_mem _ hr')

/-- Ids of enrollment rows stay distinct and below the counter. -/
structure EnrollInv (st : EnrollSyncState) : Prop where
  nodup : (st.enrollments.map (·.id)).Nodup
  bound : ∀ e ∈ st.enrollments, e.id < st.nextId

theorem enrollInv_step (M : IdMap) (st : EnrollSyncState) (r : BQEnrollmentRow)
    (inv : EnrollInv st) : EnrollInv (enrollStep M st r) := by
  cases hget : mapGet M r.vc_class_id with
  | none =>
    rw [enrollStep_error_eq M st r hget]
    exact ⟨inv.nodup, inv.bound⟩
  | some cid =>
    cases hup : upsertEnrollList cid r.student_person_id
        (enrollmentTypeOf r.enrollment_status) st.enrollments with
    | some es' =>
      rw [enrollStep_update_eq M st r cid hget es' hup]
      have hids := upsertEnrollList_ids _ _ _ _ _ hup
      constructor
      · show (es'.map (·.id)).Nodup
        rw [hids]; exact inv.nodup
      · intro e he
        show e.id < st.nextId
        have : e.id ∈ es'.map (·.id) := List.mem_map_of_mem _ he
        rw [hids] at this
        obtain ⟨e0, he0, heq⟩ := List.mem_map.mp this
        rw [← heq]
        exact inv.bound e0 he0
    | none =>
      rw [enrollStep_insert_eq M st r cid hget hup]
      constructor
      · show ((st.enrollments ++
            [newEnrollRow st.nextId cid r.student_person_id
              (enrollmentTypeOf r.enrollment_status)]).map (·.id)).Nodup
        simp only [List.map_append, List.map_cons, List.map_nil]
        rw [List.nodup_append]
        refine ⟨inv.nodup, List.nodup_singleton _, ?_⟩
        intro x hx
        simp only [List.mem_singleton]
        obtain ⟨e, he, rfl⟩ := List.mem_map.mp hx
        exact Nat.ne_of_lt (inv.bound e he)
      · intro e he
        rcases List.mem_append.mp he with h | h
        · exact Nat.lt_succ_of_lt (inv.bound e h)
        · simp at h; subst h; exact Nat.lt_succ_self _

theorem enrollInv_foldl (M : IdMap) (feed : List BQEnrollmentRow) :
    ∀ st, EnrollInv st → EnrollInv (feed.foldl (enrollStep M) st) := by
  induction feed with
  | nil => intro st inv; exact inv
  | cons r rest ih => intro st inv; exact ih _ (enrollInv_step M st r inv)

/-- Processing a feed row with a different resolved key preserves `FKF`. -/
theorem enroll_fkf_step_preserve (M : IdMap) (st : EnrollSyncState) (r' : BQEnrollmentRow)
    (cid sid : Nat) (et : String)
    (hk : ∀ cid', mapGet M r'.vc_class_id = some cid' →
      (cid', r'.student_person_id) ≠ (cid, sid))
    (h : FKF st.enrollments cid sid et) :
    FKF (enrollStep M st r').enrollments cid sid et := by
  cases hget : mapGet M r'.vc_class_id with
  | none =>
    rw [enrollStep_error_eq M st r' hget]
    exact h
  | some cid' =>
    cases hup : upsertEnrollList cid' r'.student_person_id
        (enrollmentTypeOf r'.enrollment_status) st.enrollments with
    | some es' =>
      rw [enrollStep_update_eq M st r' cid' hget es' hup]
      exact fkf_other_key cid sid cid' r'.student_person_id et _ (hk cid' hget) _ es' hup h
    | none =>
      rw [enrollStep_insert_eq M st r' cid' hget hup]
      exact fkf_append _ _ _ _ _ h

/-- After processing a resolvable feed row, its key is settled. -/
theorem enroll_fkf_step_self (M : IdMap) (st : EnrollSyncState) (r : BQEnrollmentRow)
    (cid : Nat) (hget : mapGet M r.vc_class_id = some cid) :
    FKF (enrollStep M st r).enrollments cid r.student_person_id
      (enrollmentTypeOf r.enrollment_status) := by
  cases hup : upsertEnrollList cid r.student_person_id
      (enrollmentTypeOf r.enrollment_status) st.enrollments with
  | some es' =>
    rw [enrollStep_update_eq M st r cid hget es' hup]
    exact fkf_after_update _ _ _ _ es' hup
  | none =>
    rw [enrollStep_insert_eq M st r cid hget hup]
    exact fkf_after_insert _ _ _ _ _ hup

theorem enroll_fkf_foldl_preserve (M : IdMap) (cid sid : Nat) (et : String)
    (feed : List BQEnrollmentRow) :
    ∀ st, (∀ r' ∈ feed, ∀ cid', mapGet M r'.vc_class_id = some cid' →
        (cid', r'.student_person_id) ≠ (cid, sid)) →
      FKF st.enrollments cid sid et →
      FKF ((feed.foldl (enrollStep M) st)).enrollments cid sid et := by
  induction feed with
  | nil => intro st _ h; exact h
  | cons r' rest ih =>
    intro st hne h
    exact ih _ (fun x hx => hne x (List.mem_cons_of_mem _ hx))
      (enroll_fkf_step_preserve M st r' cid sid et (hne r' (List.mem_cons_self _ _)) h)

/-- After the loop over a feed whose `(external class id, student)` pairs are
distinct and whose map lookups are injective, every resolvable row is settled. -/
theorem enroll_fkf_foldl (M : IdMap)
    (hMinj : ∀ v1 v2 i, mapGet M v1 = some i → mapGet M v2 = some i → v1 = v2)
    (feed : List BQEnrollmentRow)
    (hnodup : (feed.map (fun r => (r.vc_class_id, r.student_person_id))).Nodup) :
    ∀ st, ∀ r ∈ feed, ∀ cid, mapGet M r.vc_class_id = some cid →
      FKF ((feed.foldl (enrollStep M) st)).enrollments cid r.student_person_id
        (enrollmentTypeOf r.enrollment_status) := by
  induction feed with
  | nil => intro st r hr; exact absurd hr (List.not_mem_nil r)
  | cons r0 rest ih =>
    intro st r hr cid hget
    simp only [List.map_cons, List.nodup_cons] at hnodup
    rcases List.mem_cons.mp hr with rfl | hmem
    · rw [List.foldl_cons]
      apply enroll_fkf_foldl_preserve
      · intro r' hr' cid' hget' hcontra
        have hsid : r'.student_person_id = r.student_person_id := by
          have := congrArg Prod.snd hcontra
          exact this
        have hcid : cid' = cid := congrArg Prod.fst hcontra
        have hvc : r'.vc_class_id = r.vc_class_id :=
          hMinj _ _ cid (hcid ▸ hget') hget
        exact hnodup.1 (by
          rw [← hvc, ← hsid]
          exact List.mem_map_of_mem _ hr')
      · exact enroll_fkf_step_self M st r cid hget
    · rw [List.foldl_cons]
      exact ih hnodup.2 _ r hmem cid hget

/-- The loop leaves the table and the counter unchanged when every resolvable
feed row is already settled. -/
theorem enroll_noop_foldl (M : IdMap) (feed : List BQEnrollmentRow) :
    ∀ st, (∀ r ∈ feed, ∀ cid, mapGet M r.vc_class_id = some cid →
        FKF st.enrollments cid r.student_person_id (enrollmentTypeOf r.enrollment_status)) →
      ((feed.foldl (enrollStep M) st).enrollments = st.enrollments ∧
        (feed.foldl (enrollStep M) st).nextId = st.nextId) := by
  induction feed with
  | nil => intro st _; exact ⟨rfl, rfl⟩
  | cons r rest ih =>
    intro st h
    rw [List.foldl_cons]
    cases hget : mapGet M r.vc_class_id with
    | none =>
      rw [enrollStep_error_eq M st r hget]
      exact ih _ (fun r' hr' => h r' (List.mem_cons_of_mem _ hr'))
    | some cid =>
      have hf := h r (List.mem_cons_self _ _) cid hget
      rw [enrollStep_update_eq M st r cid hget st.enrollments hf]
      exact ih _ (fun r' hr' => h r' (List.mem_cons_of_mem _ hr'))

end ASP

namespace ASP

/-! ## Pass-level facts -/

theorem syncPass_classes (s : Store) (cf : List BQClassRow) (ef : List BQEnrollmentRow)
    (now : Nat) :
    (syncPass s cf ef now).1.classes =
      (deactivateClasses (runClassSync s cf).classes s.classes (runClassSync s cf).seen).1 := rfl

theorem syncPass_enrollments (s : Store) (cf : List BQClassRow) (ef : List BQEnrollmentRow)
    (now : Nat) :
    (syncPass s cf ef now).1.enrollments =
      (deactivateEnrollments
        (runEnrollSync (runClassSync s cf).idMap s.enrollments s.nextEnrollId ef).enrollments
        (runEnrollSync (runClassSync s cf).idMap s.enrollments s.nextEnrollId ef).keys).1 := rfl

theorem syncPass_lastSync (s : Store) (cf : List BQClassRow) (ef : List BQEnrollmentRow)
    (now : Nat) : (syncPass s cf ef now).1.lastSync = now := rfl

theorem syncPass_nextClassId (s : Store) (cf : List BQClassRow) (ef : List BQEnrollmentRow)
    (now : Nat) : (syncPass s cf ef now).1.nextClassId = (runClassSync s cf).nextId := rfl

theorem syncPass_nextEnrollId (s : Store) (cf : List BQClassRow) (ef : List BQEnrollmentRow)
    (now : Nat) :
    (syncPass s cf ef now).1.nextEnrollId =
      (runEnrollSync (runClassSync s cf).idMap s.enrollments s.nextEnrollId ef).nextId := rfl

theorem syncPass_errors (s : Store) (cf : List BQClassRow) (ef : List BQEnrollmentRow)
    (now : Nat) :
    (syncPass s cf ef now).2.errors =
      (runEnrollSync (runClassSync s cf).idMap s.enrollments s.nextEnrollId ef).errors := rfl

theorem runClassSync_inv (s : Store) (cf : List BQClassRow)
    (h1 : (s.classes.map (·.id)).Nodup) (h2 : ∀ c ∈ s.classes, c.id < s.nextClassId) :
    ClassInv s.classes (runClassSync s cf) :=
  classInv_foldl s.classes cf _ (classInv_init s h1 h2)

theorem seenHas_iff (seen : List String) (v : String) :
    seenHas seen v = true ↔ v ∈ seen := by
  simp [seenHas]

theorem keysHave_iff (keys : List (Nat × Nat)) (k : Nat × Nat) :
    keysHave keys k = true ↔ k ∈ keys := by
  simp [keysHave]

theorem seen_runClassSync (s : Store) (cf : List BQClassRow) (v : String) :
    v ∈ (runClassSync s cf).seen ↔ ∃ r ∈ cf, r.vc_class_id = v := by
  unfold runClassSync
  rw [seen_foldl]
  simp

/-- Injectivity of the post-loop id map on hits. -/
theorem classInv_map_inj (C0 : List ClassRow) (st : ClassSyncState) (inv : ClassInv C0 st)
    (v1 v2 : String) (i : Nat) (h1 : mapGet st.idMap v1 = some i)
    (h2 : mapGet st.idMap v2 = some i) : v1 = v2 := by
  obtain ⟨c1, hc1, hcid1, hvc1⟩ := inv.mapCorrect _ _ h1
  obtain ⟨c2, hc2, hcid2, hvc2⟩ := inv.mapCorrect _ _ h2
  have : c1 = c2 := List.inj_on_of_nodup_map inv.nodup hc1 hc2 (by rw [hcid1, hcid2])
  subst this
  rw [← hvc1, ← hvc2]

/-- The deactivation map of step 4 (the pointwise form). -/
def classDeactMap (s : Store) (cf : List BQClassRow) (c : ClassRow) : ClassRow :=
  if classDeactTargets s.classes (runClassSync s cf).seen c.id then
    { c with is_active := false }
  else c

theorem classDeactMap_id (s : Store) (cf : List BQClassRow) (c : ClassRow) :
    (classDeactMap s cf c).id = c.id := by
  unfold classDeactMap
  by_cases h : classDeactTargets s.classes (runClassSync s cf).seen c.id <;> simp [h]

theorem classDeactMap_vc (s : Store) (cf : List BQClassRow) (c : ClassRow) :
    (classDeactMap s cf c).vc_class_id = c.vc_class_id := by
  unfold classDeactMap
  by_cases h : classDeactTargets s.classes (runClassSync s cf).seen c.id <;> simp [h]

theorem passClasses_eq (s : Store) (cf : List BQClassRow) (ef : List BQEnrollmentRow)
    (now : Nat) :
    (syncPass s cf ef now).1.classes =
      (runClassSync s cf).classes.map (classDeactMap s cf) := by
  rw [syncPass_classes, deactivateClasses_fst]
  rfl

/-- Ids in the post-pass class table are still distinct. -/
theorem pass_classes_nodup (s : Store) (cf : List BQClassRow) (ef : List BQEnrollmentRow)
    (now : Nat) (h1 : (s.classes.map (·.id)).Nodup)
    (h2 : ∀ c ∈ s.classes, c.id < s.nextClassId) :
    ((syncPass s cf ef now).1.classes.map (·.id)).Nodup := by
  rw [passClasses_eq, List.map_map]
  have : ((runClassSync s cf).classes.map ((·.id) ∘ classDeactMap s cf)) =
      (runClassSync s cf).classes.map (·.id) :=
    List.map_congr_left (fun c _ => classDeactMap_id s cf c)
  rw [this]
  exact (runClassSync_inv s cf h1 h2).nodup

/-- Ids in the post-pass class table are below the post-pass counter. -/
theorem pass_classes_bound (s : Store) (cf : List BQClassRow) (ef : List BQEnrollmentRow)
    (now : Nat) (h1 : (s.classes.map (·.id)).Nodup)
    (h2 : ∀ c ∈ s.classes, c.id < s.nextClassId) :
    ∀ c ∈ (syncPass s cf ef now).1.classes, c.id < (syncPass s cf ef now).1.nextClassId := by
  intro c hc
  rw [passClasses_eq] at hc
  obtain ⟨c0, hc0, rfl⟩ := List.mem_map.mp hc
  rw [classDeactMap_id, syncPass_nextClassId]
  exact (runClassSync_inv s cf h1 h2).bound c0 hc0

/-- Rebuilding the id map from the post-pass table gives the same lookups as
the loop's final map. -/
theorem pass_map_agree (s : Store) (cf : List BQClassRow) (ef : List BQEnrollmentRow)
    (now : Nat) (h1 : (s.classes.map (·.id)).Nodup)
    (h2 : ∀ c ∈ s.classes, c.id < s.nextClassId) (v : String) :
    mapGet (buildClassIdMap (syncPass s cf ef now).1.classes) v =
      mapGet (runClassSync s cf).idMap v := by
  rw [passClasses_eq,
    buildClassIdMap_mapMem _ _ (fun c _ => classDeactMap_id s cf c)
      (fun c _ => classDeactMap_vc s cf c)]
  exact ((runClassSync_inv s cf h1 h2).mapAgree v).symm

/-- G1: after a pass, every feed class row is settled in the post-pass table. -/
theorem pass_fixedFor (s : Store) (cf : List BQClassRow) (ef : List BQEnrollmentRow)
    (now : Nat) (h1 : (s.classes.map (·.id)).Nodup)
    (h2 : ∀ c ∈ s.classes, c.id < s.nextClassId)
    (hnodup : (cf.map (·.vc_class_id)).Nodup) :
    ∀ r ∈ cf, FixedFor (buildClassIdMap (syncPass s cf ef now).1.classes)
      (syncPass s cf ef now).1.classes r := by
  intro r hr
  have inv := runClassSync_inv s cf h1 h2
  obtain ⟨i, hget, hfix⟩ :=
    fixedFor_foldl s.classes cf _ (classInv_init s h1 h2) hnodup r hr
  refine ⟨i, ?_, ?_⟩
  · rw [pass_map_agree s cf ef now h1 h2]
    exact hget
  · intro c hc hcid
    rw [passClasses_eq] at hc
    obtain ⟨c0, hc0, rfl⟩ := List.mem_map.mp hc
    rw [classDeactMap_id] at hcid
    have hcond : classDeactTargets s.classes (runClassSync s cf).seen c0.id = false := by
      rw [classDeactTargets, List.any_eq_false]
      intro ex hex
      by_cases hexid : ex.id = c0.id
      · have hvcs : c0.vc_class_id = ex.vc_class_id :=
          inv.vcStable c0 hc0 ex hex (by rw [hexid, hcid])
        obtain ⟨c1, hc1, hcid1, hvc1⟩ := inv.mapCorrect _ _ hget
        have hc0c1 : c0 = c1 :=
          List.inj_on_of_nodup_map inv.nodup hc0 hc1 (by rw [hcid, hcid1])
        have hmem : ex.vc_class_id ∈ (runClassSync s cf).seen := by
          rw [← hvcs, hc0c1, hvc1, seen_runClassSync]
          exact ⟨r, hr, rfl⟩
        rw [← seenHas_iff] at hmem
        simp [hmem]
      · simp [hexid]
    have hmap : classDeactMap s cf c0 = c0 := by
      unfold classDeactMap
      rw [hcond]
      simp
    rw [hmap]
    exact hfix c0 hc0 hcid

/-- F2: after a pass, every class row whose external id is not in the feed is
inactive. -/
theorem pass_inactive (s : Store) (cf : List BQClassRow) (ef : List BQEnrollmentRow)
    (now : Nat) (h1 : (s.classes.map (·.id)).Nodup)
    (h2 : ∀ c ∈ s.classes, c.id < s.nextClassId) :
    ∀ c ∈ (syncPass s cf ef now).1.classes,
      (∀ r ∈ cf, r.vc_class_id ≠ c.vc_class_id) → c.is_active = false := by
  intro c hc hnot
  have inv := runClassSync_inv s cf h1 h2
  rw [passClasses_eq] at hc
  obtain ⟨c0, hc0, rfl⟩ := List.mem_map.mp hc
  have hvc0 : ∀ r ∈ cf, r.vc_class_id ≠ c0.vc_class_id := by
    intro r hr
    have := hnot r hr
    rw [classDeactMap_vc] at this
    exact this
  have hnotseen : ¬ c0.vc_class_id ∈ (runClassSync s cf).seen := by
    rw [seen_runClassSync]
    rintro ⟨r, hr, hv⟩
    exact hvc0 r hr hv
  by_cases hcond : classDeactTargets s.classes (runClassSync s cf).seen c0.id
  · unfold classDeactMap
    rw [hcond]
    simp
  · exfalso
    rcases inv.origin c0 hc0 with horig | horig
    · apply hcond
      rw [classDeactTargets, List.any_eq_true]
      refine ⟨c0, horig, ?_⟩
      have hfalse : seenHas (runClassSync s cf).seen c0.vc_class_id = false := by
        rw [Bool.eq_false_iff]
        intro hs
        exact hnotseen ((seenHas_iff _ _).mp hs)
      simp [hfalse]
    · exact hnotseen horig

end ASP

namespace ASP

/-! ## Pass-level facts about enrollments -/

theorem runEnrollSync_eq (M : IdMap) (es : List EnrollRow) (n : Nat)
    (ef : List BQEnrollmentRow) :
    runEnrollSync M es n ef =
      ef.foldl (enrollStep M)
        { enrollments := es, nextId := n, keys := [], errors := [], upserted := 0 } := rfl

theorem pass_keys (M : IdMap) (es : List EnrollRow) (n : Nat) (ef : List BQEnrollmentRow) :
    (runEnrollSync M es n ef).keys = (ef.filterMap (resolveEnroll M)).reverse := by
  rw [runEnrollSync_eq, enroll_keys_foldl]
  simp

theorem mem_pass_keys (M : IdMap) (es : List EnrollRow) (n : Nat)
    (ef : List BQEnrollmentRow) (k : Nat × Nat) :
    k ∈ (runEnrollSync M es n ef).keys ↔ ∃ r ∈ ef, resolveEnroll M r = some k := by
  rw [pass_keys, List.mem_reverse, List.mem_filterMap]

theorem pass_enroll_errors (M : IdMap) (es : List EnrollRow) (n : Nat)
    (ef : List BQEnrollmentRow) :
    (runEnrollSync M es n ef).errors = ef.filterMap (enrollErrOf M) := by
  rw [runEnrollSync_eq, enroll_errors_foldl]
  simp

theorem pass_enroll_upserted (M : IdMap) (es : List EnrollRow) (n : Nat)
    (ef : List BQEnrollmentRow) :
    (runEnrollSync M es n ef).upserted =
      ef.countP (fun r => (mapGet M r.vc_class_id).isSome) := by
  rw [runEnrollSync_eq, enroll_upserted_foldl]
  simp

theorem runEnrollSync_inv (M : IdMap) (es : List EnrollRow) (n : Nat)
    (ef : List BQEnrollmentRow) (h1 : (es.map (·.id)).Nodup) (h2 : ∀ e ∈ es, e.id < n) :
    EnrollInv (runEnrollSync M es n ef) := by
  rw [runEnrollSync_eq]
  exact enrollInv_foldl M ef _ ⟨h1, h2⟩

/-- The deactivation map of step 6 (the pointwise form), for a pass over store
`s` with feeds `cf`, `ef`. -/
def enrollDeactMap (s : Store) (cf : List BQClassRow) (ef : List BQEnrollmentRow)
    (e : EnrollRow) : EnrollRow :=
  let enr := runEnrollSync (runClassSync s cf).idMap s.enrollments s.nextEnrollId ef
  if enrollDeactTargets (activeVeracross enr.enrollments) enr.keys e.id then deactEnroll e
  else e

theorem enrollDeactMap_eq (s : Store) (cf : List BQClassRow) (ef : List BQEnrollmentRow)
    (e : EnrollRow) :
    enrollDeactMap s cf ef e =
      if enrollDeactTargets
          (activeVeracross (runEnrollSync (runClassSync s cf).idMap s.enrollments
            s.nextEnrollId ef).enrollments)
          (runEnrollSync (runClassSync s cf).idMap s.enrollments s.nextEnrollId ef).keys e.id
      then deactEnroll e else e := rfl

theorem enrollDeactMap_id (s : Store) (cf : List BQClassRow) (ef : List BQEnrollmentRow)
    (e : EnrollRow) : (enrollDeactMap s cf ef e).id = e.id := by
  unfold enrollDeactMap
  by_cases h : enrollDeactTargets
      (activeVeracross (runEnrollSync (runClassSync s cf).idMap s.enrollments
        s.nextEnrollId ef).enrollments)
      (runEnrollSync (runClassSync s cf).idMap s.enrollments s.nextEnrollId ef).keys e.id <;>
    simp [h, deactEnroll]

theorem enrollDeactMap_key (s : Store) (cf : List BQClassRow) (ef : List BQEnrollmentRow)
    (e : EnrollRow) :
    (enrollDeactMap s cf ef e).class_id = e.class_id ∧
      (enrollDeactMap s cf ef e).student_person_id = e.student_person_id := by
  unfold enrollDeactMap
  by_cases h : enrollDeactTargets
      (activeVeracross (runEnrollSync (runClassSync s cf).idMap s.enrollments
        s.nextEnrollId ef).enrollments)
      (runEnrollSync (runClassSync s cf).idMap s.enrollments s.nextEnrollId ef).keys e.id <;>
    simp [h, deactEnroll]

theorem passEnrollments_eq (s : Store) (cf : List BQClassRow) (ef : List BQEnrollmentRow)
    (now : Nat) :
    (syncPass s cf ef now).1.enrollments =
      (runEnrollSync (runClassSync s cf).idMap s.enrollments s.nextEnrollId ef).enrollments.map
        (enrollDeactMap s cf ef) := by
  rw [syncPass_enrollments, deactivateEnrollments_fst]
  rfl

/-- G4: after a pass, every still-active Veracross row's key was in this pass's
key set. -/
theorem pass_active_mem_keys (s : Store) (cf : List BQClassRow) (ef : List BQEnrollmentRow)
    (now : Nat) :
    ∀ e ∈ (syncPass s cf ef now).1.enrollments, e.source = "veracross" →
      e.status = "active" →
      (e.class_id, e.student_person_id) ∈
        (runEnrollSync (runClassSync s cf).idMap s.enrollments s.nextEnrollId ef).keys := by
  intro e' he' hsrc hstat
  rw [passEnrollments_eq] at he'
  obtain ⟨e, he, rfl⟩ := List.mem_map.mp he'
  set enr := runEnrollSync (runClassSync s cf).idMap s.enrollments s.nextEnrollId ef with henr
  by_cases hcond : enrollDeactTargets (activeVeracross enr.enrollments) enr.keys e.id
  · exfalso
    have : (enrollDeactMap s cf ef e).status = "inactive" := by
      rw [enrollDeactMap_eq, ← henr, if_pos hcond]
      simp [deactEnroll]
    rw [hstat] at this
    exact absurd this (by decide)
  · have heq : enrollDeactMap s cf ef e = e := by
      rw [enrollDeactMap_eq, ← henr, if_neg hcond]
    rw [heq] at hsrc hstat ⊢
    by_contra hnot
    apply hcond
    rw [enrollDeactTargets, List.any_eq_true]
    refine ⟨e, ?_, ?_⟩
    · rw [activeVeracross, List.mem_filter]
      refine ⟨he, ?_⟩
      simp [hsrc, hstat]
    · have hkf : keysHave enr.keys (e.class_id, e.student_person_id) = false := by
        rw [Bool.eq_false_iff]
        intro hk
        exact hnot ((keysHave_iff _ _).mp hk)
      simp [hkf]

/-- G3: after a pass over well-formed data, every resolvable feed enrollment
row is settled in the post-pass table. -/
theorem pass_fkf (s : Store) (cf : List BQClassRow) (ef : List BQEnrollmentRow)
    (now : Nat) (hWF : s.WF) (hnodupEf : (ef.map (fun r => (r.vc_class_id, r.student_person_id))).Nodup) :
    ∀ r ∈ ef, ∀ cid, mapGet (runClassSync s cf).idMap r.vc_class_id = some cid →
      FKF (syncPass s cf ef now).1.enrollments cid r.student_person_id
        (enrollmentTypeOf r.enrollment_status) := by
  intro r hr cid hget
  obtain ⟨hcn, hcb, hen, heb⟩ := hWF
  have inv := runClassSync_inv s cf hcn hcb
  set M := (runClassSync s cf).idMap with hM
  set enr := runEnrollSync M s.enrollments s.nextEnrollId ef with henr
  have hfkf1 : FKF enr.enrollments cid r.student_person_id
      (enrollmentTypeOf r.enrollment_status) := by
    rw [henr, runEnrollSync_eq]
    exact enroll_fkf_foldl M (fun v1 v2 i ha hb => classInv_map_inj s.classes _ inv v1 v2 i ha hb)
      ef hnodupEf _ r hr cid hget
  have einv : EnrollInv enr := runEnrollSync_inv M s.enrollments s.nextEnrollId ef hen heb
  have hkmem : (cid, r.student_person_id) ∈ enr.keys := by
    rw [henr, mem_pass_keys]
    exact ⟨r, hr, by simp [resolveEnroll, ← hM, hget]⟩
  rw [passEnrollments_eq]
  apply fkf_map cid r.student_person_id (enrollmentTypeOf r.enrollment_status)
    (enrollDeactMap s cf ef) (enrollDeactMap_key s cf ef) enr.enrollments hfkf1
  intro e he hk
  rw [enrollDeactMap_eq, ← hM, ← henr]
  have hcond : enrollDeactTargets (activeVeracross enr.enrollments) enr.keys e.id = false := by
    rw [enrollDeactTargets, List.any_eq_false]
    intro ex hex
    have hexE1 : ex ∈ enr.enrollments := (List.mem_filter.mp hex).1
    by_cases hexid : ex.id = e.id
    · have : ex = e := List.inj_on_of_nodup_map einv.nodup hexE1 he hexid
      subst this
      have : keysHave enr.keys (ex.class_id, ex.student_person_id) = true := by
        rw [keysHave_iff, hk.1, hk.2]
        exact hkmem
      simp [this]
    · simp [hexid]
  rw [hcond]
  simp

/-- Step 6 is the identity when every active Veracross row's key is present. -/
theorem deact_noop_enrollments (es : List EnrollRow) (keys : List (Nat × Nat))
    (h : ∀ e ∈ es, e.source = "veracross" → e.status = "active" →
      (e.class_id, e.student_person_id) ∈ keys) :
    (deactivateEnrollments es keys).1 = es := by
  rw [deactivateEnrollments_fst]
  have : ∀ e ∈ es,
      (if enrollDeactTargets (activeVeracross es) keys e.id then deactEnroll e else e) = e := by
    intro e he
    have hcond : enrollDeactTargets (activeVeracross es) keys e.id = false := by
      rw [enrollDeactTargets, List.any_eq_false]
      intro ex hex
      obtain ⟨hexE, hexP⟩ := List.mem_filter.mp hex
      simp only [decide_eq_true_eq] at hexP
      by_cases hexid : ex.id = e.id
      · have hkeys : keysHave keys (ex.class_id, ex.student_person_id) = true := by
          rw [keysHave_iff]
          exact h ex hexE hexP.1 hexP.2
        simp [hkeys]
      · simp [hexid]
    rw [hcond]
    simp
  rw [List.map_congr_left this]; exact List.map_id _

/-- Step 4 is the identity when every targeted row is already inactive. -/
theorem deact_noop_classes (current existing : List ClassRow) (seen : List String)
    (h : ∀ c ∈ current, classDeactTargets existing seen c.id = true → c.is_active = false) :
    (deactivateClasses current existing seen).1 = current := by
  rw [deactivateClasses_fst]
  have : ∀ c ∈ current,
      (if classDeactTargets existing seen c.id then { c with is_active := false } else c) = c := by
    intro c hc
    by_cases hcond : classDeactTargets existing seen c.id
    · rw [if_pos hcond]
      exact setInactive_eq_self c (h c hc hcond)
    · rw [if_neg hcond]
  rw [List.map_congr_left this]; exact List.map_id _

/-- The class loop is the identity on table, map and counter when every feed
row is settled. -/
theorem classLoop_noop (feed : List BQClassRow) :
    ∀ st, (∀ r ∈ feed, FixedFor st.idMap st.classes r) →
      ((feed.foldl classStep st).classes = st.classes ∧
        (feed.foldl classStep st).idMap = st.idMap ∧
        (feed.foldl classStep st).nextId = st.nextId) := by
  induction feed with
  | nil => intro st _; exact ⟨rfl, rfl, rfl⟩
  | cons r rest ih =>
    intro st h
    obtain ⟨i, hget, hfix⟩ := h r (List.mem_cons_self _ _)
    rw [List.foldl_cons, classStep_update_eq st r i hget]
    have hcl : st.classes.map (fun c => if c.id = i then applyClassData c (mkClassData r) else c) =
        st.classes := by
      have : ∀ c ∈ st.classes,
          (if c.id = i then applyClassData c (mkClassData r) else c) = c := by
        intro c hc
        by_cases hcid : c.id = i
        · rw [if_pos hcid]
          exact (hfix c hc hcid).symm
        · rw [if_neg hcid]
      rw [List.map_congr_left this]; exact List.map_id _
    obtain ⟨ha, hb, hc⟩ := ih
      { st with
        classes := st.classes.map (fun c => if c.id = i then applyClassData c (mkClassData r) else c)
        seen := r.vc_class_id :: st.seen
        updated := st.updated + 1 }
      (by
        intro r' hr'
        obtain ⟨i', hget', hfix'⟩ := h r' (List.mem_cons_of_mem _ hr')
        exact ⟨i', hget', by rw [hcl]; exact hfix'⟩)
    refine ⟨?_, ?_, ?_⟩
    · rw [ha]; exact hcl
    · rw [hb]
    · rw [hc]

end ASP

namespace ASP

theorem resolveEnroll_congr (M M' : IdMap) (r : BQEnrollmentRow)
    (h : mapGet M r.vc_class_id = mapGet M' r.vc_class_id) :
    resolveEnroll M r = resolveEnroll M' r := by
  simp [resolveEnroll, h]

/-- C1: Running the Reconciler (the sync pass in POST /api/sync-asp-data) a
second time with an unchanged external feed produces zero net row changes: no
new `asp_classes` or `asp_enrollments` rows are created, no row's status or
active flag changes, and no stored field changes except the last-sync
timestamp. Stated for a well-formed store and feeds with distinct natural
keys, as guaranteed by the database constraints. -/
theorem sync_idempotent (s : Store) (cf : List BQClassRow) (ef : List BQEnrollmentRow)
    (t1 t2 : Nat) (hWF : s.WF)
    (hcf : (cf.map (·.vc_class_id)).Nodup)
    (hef : (ef.map (fun r => (r.vc_class_id, r.student_person_id))).Nodup) :
    (syncPass (syncPass s cf ef t1).1 cf ef t2).1.classes = (syncPass s cf ef t1).1.classes ∧
    (syncPass (syncPass s cf ef t1).1 cf ef t2).1.enrollments =
      (syncPass s cf ef t1).1.enrollments ∧
    (syncPass (syncPass s cf ef t1).1 cf ef t2).1.lastSync = t2 := by
  obtain ⟨hcn, hcb, hen, heb⟩ := hWF
  set s1 := (syncPass s cf ef t1).1 with hs1
  have h1n : (s1.classes.map (·.id)).Nodup := pass_classes_nodup s cf ef t1 hcn hcb
  have h1b : ∀ c ∈ s1.classes, c.id < s1.nextClassId := pass_classes_bound s cf ef t1 hcn hcb
  have hfix : ∀ r ∈ cf, FixedFor (buildClassIdMap s1.classes) s1.classes r :=
    pass_fixedFor s cf ef t1 hcn hcb hcf
  -- the second class loop is the identity
  have hloop := classLoop_noop cf
    { classes := s1.classes, idMap := buildClassIdMap s1.classes, nextId := s1.nextClassId,
      seen := [], inserted := 0, updated := 0 }
    (by intro r hr; exact hfix r hr)
  have hA : (runClassSync s1 cf).classes = s1.classes := hloop.1
  have hB : (runClassSync s1 cf).idMap = buildClassIdMap s1.classes := hloop.2.1
  -- the second class deactivation is the identity
  have hclasses : (syncPass s1 cf ef t2).1.classes = s1.classes := by
    rw [syncPass_classes, hA]
    apply deact_noop_classes
    intro c hc hcond
    rw [classDeactTargets, List.any_eq_true] at hcond
    obtain ⟨ex, hex, hexcond⟩ := hcond
    simp only [Bool.and_eq_true, beq_iff_eq, Bool.not_eq_true'] at hexcond
    have hexc : ex = c := List.inj_on_of_nodup_map h1n hex hc hexcond.1
    subst hexc
    have hnotseen : ∀ r ∈ cf, r.vc_class_id ≠ ex.vc_class_id := by
      intro r hr hcontra
      have : ex.vc_class_id ∈ (runClassSync s1 cf).seen := by
        rw [seen_runClassSync]
        exact ⟨r, hr, hcontra⟩
      rw [← seenHas_iff] at this
      rw [this] at hexcond
      exact absurd hexcond.2 (by simp)
    exact pass_inactive s cf ef t1 hcn hcb ex hex hnotseen
  -- map lookups of the second pass agree with the first pass's final map
  have hlook : ∀ v, mapGet (runClassSync s1 cf).idMap v = mapGet (runClassSync s cf).idMap v := by
    intro v
    rw [hB]
    exact pass_map_agree s cf ef t1 hcn hcb v
  -- the second enrollment loop is the identity
  have hfkf2 : ∀ r ∈ ef, ∀ cid, mapGet (runClassSync s1 cf).idMap r.vc_class_id = some cid →
      FKF s1.enrollments cid r.student_person_id (enrollmentTypeOf r.enrollment_status) := by
    intro r hr cid hget
    rw [hlook] at hget
    exact pass_fkf s cf ef t1 ⟨hcn, hcb, hen, heb⟩ hef r hr cid hget
  have hnoop := enroll_noop_foldl (runClassSync s1 cf).idMap ef
    { enrollments := s1.enrollments, nextId := s1.nextEnrollId, keys := [], errors := [],
      upserted := 0 }
    (by intro r hr cid hget; exact hfkf2 r hr cid hget)
  have hE : (runEnrollSync (runClassSync s1 cf).idMap s1.enrollments s1.nextEnrollId ef).enrollments
      = s1.enrollments := by
    rw [runEnrollSync_eq]
    exact hnoop.1
  -- keys of the second pass contain every still-active Veracross key
  have hkeys2 : ∀ e ∈ s1.enrollments, e.source = "veracross" → e.status = "active" →
      (e.class_id, e.student_person_id) ∈
        (runEnrollSync (runClassSync s1 cf).idMap s1.enrollments s1.nextEnrollId ef).keys := by
    intro e he hsrc hstat
    have h1 := pass_active_mem_keys s cf ef t1 e he hsrc hstat
    rw [mem_pass_keys] at h1 ⊢
    obtain ⟨r, hr, hres⟩ := h1
    refine ⟨r, hr, ?_⟩
    rw [resolveEnroll_congr _ _ r (hlook r.vc_class_id)]
    exact hres
  have henrolls : (syncPass s1 cf ef t2).1.enrollments = s1.enrollments := by
    rw [syncPass_enrollments, hE]
    apply deact_noop_enrollments
    exact hkeys2
  exact ⟨hclasses, henrolls, syncPass_lastSync s1 cf ef t2⟩

end ASP

namespace ASP

theorem applyClassData_active (c : ClassRow) (d : ClassData) :
    (applyClassData c d).is_active = true := rfl

/-- Row ids only accumulate through the enrollment loop. -/
theorem enroll_ids_extend (M : IdMap) (feed : List BQEnrollmentRow) :
    ∀ st, ∃ l, (feed.foldl (enrollStep M) st).enrollments.map (·.id) =
      st.enrollments.map (·.id) ++ l := by
  induction feed with
  | nil => intro st; exact ⟨[], by simp⟩
  | cons r rest ih =>
    intro st
    rw [List.foldl_cons]
    cases hget : mapGet M r.vc_class_id with
    | none =>
      rw [enrollStep_error_eq M st r hget]
      obtain ⟨l, hl⟩ := ih
        { st with errors := st.errors ++ ["No class found for vc_class_id: " ++ r.vc_class_id] }
      exact ⟨l, hl⟩
    | some cid =>
      cases hup : upsertEnrollList cid r.student_person_id
          (enrollmentTypeOf r.enrollment_status) st.enrollments with
      | some es' =>
        rw [enrollStep_update_eq M st r cid hget es' hup]
        obtain ⟨l, hl⟩ := ih
          { st with
            keys := (cid, r.student_person_id) :: st.keys
            enrollments := es'
            upserted := st.upserted + 1 }
        refine ⟨l, ?_⟩
        rw [hl]
        show es'.map (·.id) ++ l = _
        rw [upsertEnrollList_ids _ _ _ _ _ hup]
      | none =>
        rw [enrollStep_insert_eq M st r cid hget hup]
        obtain ⟨l, hl⟩ := ih
          { st with
            keys := (cid, r.student_person_id) :: st.keys
            enrollments := st.enrollments ++ [newEnrollRow st.nextId cid r.student_person_id
              (enrollmentTypeOf r.enrollment_status)]
            nextId := st.nextId + 1
            upserted := st.upserted + 1 }
        refine ⟨st.nextId :: l, ?_⟩
        rw [hl]
        show (st.enrollments ++ [newEnrollRow st.nextId cid r.student_person_id
          (enrollmentTypeOf r.enrollment_status)]).map (·.id) ++ l = _
        simp [newEnrollRow]

/-! ## Concrete witness data -/

def wClass1 : ClassRow :=
  ⟨10, "C1", "Art", "Monday", "15:45:00", "17:00:00", none, none, true⟩

def wClass3 : ClassRow :=
  ⟨11, "C3", "Chess", "Tuesday", "15:45:00", "17:00:00", none, none, true⟩

def wManual : EnrollRow :=
  ⟨20, 10, 5, some "trial", "manual", "active", false, some "added for trial", none,
    some "staff@example.org"⟩

def wExternal : EnrollRow :=
  ⟨21, 10, 6, some "enrolled", "veracross", "active", false, none, none, none⟩

def wStore : Store :=
  { classes := [wClass1, wClass3]
    enrollments := [wManual, wExternal]
    nextClassId := 12
    nextEnrollId := 22
    lastSync := 0 }

def wCf : List BQClassRow :=
  [⟨"C1", "Art ASP Semester 1", "Monday 3:45 PM - 5:00 PM", none, none⟩,
   ⟨"C2", "Chess ASP Semester 1", "Tuesday 3:45 PM - 5:00 PM", none, none⟩]

def wEf : List BQEnrollmentRow :=
  [⟨"C1", 5, some "Registered"⟩, ⟨"X99", 7, none⟩]

/-- Feed without the manual row's key, for the provenance-preservation witness. -/
def wEfNoManual : List BQEnrollmentRow := [⟨"X99", 7, none⟩]

/-- Witness for C1 at a concrete store and feed. -/
theorem sync_idempotent_witness :
    (wStore.WF ∧ (wCf.map (·.vc_class_id)).Nodup ∧
      (wEf.map (fun r => (r.vc_class_id, r.student_person_id))).Nodup) ∧
    ((syncPass (syncPass wStore wCf wEf 1).1 wCf wEf 2).1.classes =
        (syncPass wStore wCf wEf 1).1.classes ∧
      (syncPass (syncPass wStore wCf wEf 1).1 wCf wEf 2).1.enrollments =
        (syncPass wStore wCf wEf 1).1.enrollments ∧
      (syncPass (syncPass wStore wCf wEf 1).1 wCf wEf 2).1.lastSync = 2) :=
  ⟨⟨by decide, by decide, by decide⟩,
    sync_idempotent wStore wCf wEf 1 2 (by decide) (by decide) (by decide)⟩

end ASP

namespace ASP

/-- C2 counterexample: the store holds a manual-provenance enrollment for
(class C1, student 5); the feed also contains (C1, 5). Because the upsert
conflicts on `(class_id, student_person_id)` alone, the pass overwrites the
manual row (its provenance becomes `veracross` and its enrollment type is
replaced), so the row as it was no longer exists and an external and a manual
row for the same pair cannot coexist. -/
theorem manual_row_overwritten_counterexample :
    wManual.source = "manual" ∧ wManual ∈ wStore.enrollments ∧
    ((syncPass wStore wCf wEf 0).1.enrollments.map (fun e => (e.id, e.source, e.enrollment_type))) =
      [(20, "veracross", some "registered"), (21, "veracross", some "enrolled")] ∧
    wManual ∉ (syncPass wStore wCf wEf 0).1.enrollments := by
  decide

/-- C2 (amended): the deactivation step never selects manual rows, and a
manual-provenance enrollment whose (class, student) pair is not resolved from
this pass's feed survives the pass entirely unchanged; but the step-5 upsert
conflicts on `(class_id, student_person_id)` alone, so a feed row for the same
pair overwrites the manual row, and an external and a manual row for the same
pair cannot coexist (see `manual_row_overwritten_counterexample`). -/
theorem manual_rows_preserved_when_absent_from_feed (s : Store) (cf : List BQClassRow)
    (ef : List BQEnrollmentRow) (now : Nat) (hWF : s.WF) (e : EnrollRow)
    (he : e ∈ s.enrollments) (hsrc : e.source = "manual")
    (hkey : ∀ r ∈ ef, resolveEnroll (runClassSync s cf).idMap r ≠
      some (e.class_id, e.student_person_id)) :
    e ∈ (syncPass s cf ef now).1.enrollments := by
  obtain ⟨hcn, hcb, hen, heb⟩ := hWF
  set M := (runClassSync s cf).idMap with hM
  set enr := runEnrollSync M s.enrollments s.nextEnrollId ef with henr
  have he1 : e ∈ enr.enrollments := by
    rw [henr, runEnrollSync_eq]
    exact enroll_frame_foldl M ef _ e he hkey
  have einv : EnrollInv enr := runEnrollSync_inv M s.enrollments s.nextEnrollId ef hen heb
  have hcond : enrollDeactTargets (activeVeracross enr.enrollments) enr.keys e.id = false := by
    rw [enrollDeactTargets, List.any_eq_false]
    intro ex hex
    obtain ⟨hexE, hexP⟩ := List.mem_filter.mp hex
    simp only [decide_eq_true_eq] at hexP
    by_cases hexid : ex.id = e.id
    · exfalso
      have : ex = e := List.inj_on_of_nodup_map einv.nodup hexE he1 hexid
      subst this
      rw [hsrc] at hexP
      exact absurd hexP.1 (by decide)
    · simp [hexid]
  have hmape : enrollDeactMap s cf ef e = e := by
    rw [enrollDeactMap_eq, ← hM, ← henr, hcond]
    simp
  rw [passEnrollments_eq, ← hM, ← henr, ← hmape]
  exact List.mem_map_of_mem _ he1

/-- Witness for the amended C2. -/
theorem manual_rows_preserved_witness :
    (wStore.WF ∧ wManual ∈ wStore.enrollments ∧ wManual.source = "manual" ∧
      (∀ r ∈ wEfNoManual, resolveEnroll (runClassSync wStore wCf).idMap r ≠
        some (wManual.class_id, wManual.student_person_id))) ∧
    wManual ∈ (syncPass wStore wCf wEfNoManual 0).1.enrollments :=
  ⟨⟨by decide, by decide, by decide, by decide⟩,
    manual_rows_preserved_when_absent_from_feed wStore wCf wEfNoManual 0 (by decide) wManual
      (by decide) (by decide) (by decide)⟩

/-- C4 counterexample: class C1 exists, the store has an active Veracross
enrollment (C1, student 6) that is absent from the feed. The pass writes
status `inactive` — not `removed`, which is not even a value the declared
`ASPEnrollment` status type admits for this write — and removal_reason
`Removed from Veracross`, not "source record no longer present". -/
theorem vanished_enrollment_status_counterexample :
    wExternal ∈ wStore.enrollments ∧ wExternal.source = "veracross" ∧
    wExternal.status = "active" ∧
    ((syncPass wStore wCf wEf 0).1.enrollments.filter (fun e => e.id = 21)).map
      (fun e => (e.status, e.removal_reason)) =
      [("inactive", some "Removed from Veracross")] ∧
    ("inactive" : String) ≠ "removed" ∧
    some ("Removed from Veracross" : String) ≠ some "source record no longer present" := by
  decide

/-- C4 (amended): when a pass finds a currently active external-provenance
enrollment whose (class, student) key is not resolved from this pass's feed,
it sets that row's status to `inactive` and its removal_reason to
"Removed from Veracross", leaving every other field (provenance, type, notes,
history) unchanged — `deactEnroll` rewrites exactly those two fields. -/
theorem vanished_external_enrollment_deactivated (s : Store) (cf : List BQClassRow)
    (ef : List BQEnrollmentRow) (now : Nat) (e : EnrollRow)
    (he : e ∈ s.enrollments) (hsrc : e.source = "veracross") (hstat : e.status = "active")
    (hkey : ∀ r ∈ ef, resolveEnroll (runClassSync s cf).idMap r ≠
      some (e.class_id, e.student_person_id)) :
    deactEnroll e ∈ (syncPass s cf ef now).1.enrollments := by
  set M := (runClassSync s cf).idMap with hM
  set enr := runEnrollSync M s.enrollments s.nextEnrollId ef with henr
  have he1 : e ∈ enr.enrollments := by
    rw [henr, runEnrollSync_eq]
    exact enroll_frame_foldl M ef _ e he hkey
  have hnk : (e.class_id, e.student_person_id) ∉ enr.keys := by
    rw [henr, mem_pass_keys]
    rintro ⟨r, hr, hres⟩
    exact hkey r hr hres
  have hcond : enrollDeactTargets (activeVeracross enr.enrollments) enr.keys e.id = true := by
    rw [enrollDeactTargets, List.any_eq_true]
    refine ⟨e, ?_, ?_⟩
    · rw [activeVeracross, List.mem_filter]
      exact ⟨he1, by simp [hsrc, hstat]⟩
    · have : keysHave enr.keys (e.class_id, e.student_person_id) = false := by
        rw [Bool.eq_false_iff]
        intro hk
        exact hnk ((keysHave_iff _ _).mp hk)
      simp [this]
  have hmape : enrollDeactMap s cf ef e = deactEnroll e := by
    rw [enrollDeactMap_eq, ← hM, ← henr, hcond]
    simp
  rw [passEnrollments_eq, ← hM, ← henr, ← hmape]
  exact List.mem_map_of_mem _ he1

/-- Witness for the amended C4. -/
theorem vanished_external_enrollment_witness :
    (wExternal ∈ wStore.enrollments ∧ wExternal.source = "veracross" ∧
      wExternal.status = "active" ∧
      (∀ r ∈ wEf, resolveEnroll (runClassSync wStore wCf).idMap r ≠
        some (wExternal.class_id, wExternal.student_person_id))) ∧
    deactEnroll wExternal ∈ (syncPass wStore wCf wEf 0).1.enrollments :=
  ⟨⟨by decide, by decide, by decide, by decide⟩,
    vanished_external_enrollment_deactivated wStore wCf wEf 0 wExternal
      (by decide) (by decide) (by decide) (by decide)⟩

end ASP

namespace ASP

/-- C5: after one pass, every feed class is present and active, every pre-pass
class absent from the feed ends up inactive (same internal id), no class or
enrollment row is deleted, and the seen set is exactly the feed's external ids. -/
theorem class_sync_soft_delete (s : Store) (cf : List BQClassRow)
    (ef : List BQEnrollmentRow) (now : Nat)
    (hcn : (s.classes.map (·.id)).Nodup) (hcb : ∀ c ∈ s.classes, c.id < s.nextClassId)
    (hcf : (cf.map (·.vc_class_id)).Nodup) :
    (∀ r ∈ cf, ∃ c ∈ (syncPass s cf ef now).1.classes,
      c.vc_class_id = r.vc_class_id ∧ c.is_active = true) ∧
    (∀ c0 ∈ s.classes, (∀ r ∈ cf, r.vc_class_id ≠ c0.vc_class_id) →
      ∃ c ∈ (syncPass s cf ef now).1.classes, c.id = c0.id ∧ c.is_active = false) ∧
    (∀ c0 ∈ s.classes, ∃ c ∈ (syncPass s cf ef now).1.classes, c.id = c0.id) ∧
    (∀ e0 ∈ s.enrollments, ∃ e ∈ (syncPass s cf ef now).1.enrollments, e.id = e0.id) ∧
    (∀ v, v ∈ (runClassSync s cf).seen ↔ ∃ r ∈ cf, r.vc_class_id = v) := by
  have inv := runClassSync_inv s cf hcn hcb
  refine ⟨?_, ?_, ?_, ?_, fun v => seen_runClassSync s cf v⟩
  · intro r hr
    obtain ⟨i, hget, hfix⟩ := pass_fixedFor s cf ef now hcn hcb hcf r hr
    obtain ⟨c, hc, hcid, hcvc⟩ := buildClassIdMap_correct _ _ _ hget
    refine ⟨c, hc, hcvc, ?_⟩
    rw [hfix c hc hcid]
    exact applyClassData_active _ _
  · intro c0 hc0 hnot
    obtain ⟨c1, hc1, hcid⟩ := inv.survive c0 hc0
    refine ⟨classDeactMap s cf c1, ?_, ?_, ?_⟩
    · rw [passClasses_eq]
      exact List.mem_map_of_mem _ hc1
    · rw [classDeactMap_id]
      exact hcid
    · apply pass_inactive s cf ef now hcn hcb
      · rw [passClasses_eq]
        exact List.mem_map_of_mem _ hc1
      · intro r hr
        rw [classDeactMap_vc]
        rw [inv.vcStable c1 hc1 c0 hc0 hcid.symm]
        exact hnot r hr
  · intro c0 hc0
    obtain ⟨c1, hc1, hcid⟩ := inv.survive c0 hc0
    refine ⟨classDeactMap s cf c1, ?_, ?_⟩
    · rw [passClasses_eq]
      exact List.mem_map_of_mem _ hc1
    · rw [classDeactMap_id]
      exact hcid
  · intro e0 he0
    obtain ⟨l, hl⟩ := enroll_ids_extend (runClassSync s cf).idMap ef
      { enrollments := s.enrollments, nextId := s.nextEnrollId, keys := [], errors := [],
        upserted := 0 }
    have hid : e0.id ∈ (runEnrollSync (runClassSync s cf).idMap s.enrollments
        s.nextEnrollId ef).enrollments.map (·.id) := by
      rw [runEnrollSync_eq, hl]
      exact List.mem_append_left _ (List.mem_map_of_mem _ he0)
    obtain ⟨e1, he1, hide1⟩ := List.mem_map.mp hid
    refine ⟨enrollDeactMap s cf ef e1, ?_, ?_⟩
    · rw [passEnrollments_eq]
      exact List.mem_map_of_mem _ he1
    · rw [enrollDeactMap_id]
      exact hide1

/-- Witness for C5 at the spec's concrete scenario: feed classes [C1, C2],
store classes [C1, C3]; C1 is updated in place, C2 inserted active, C3 set
inactive, seen set {C1, C2}, and nothing is deleted. -/
theorem class_sync_soft_delete_witness :
    ((wStore.classes.map (·.id)).Nodup ∧ (∀ c ∈ wStore.classes, c.id < wStore.nextClassId) ∧
      (wCf.map (·.vc_class_id)).Nodup) ∧
    ((∀ r ∈ wCf, ∃ c ∈ (syncPass wStore wCf wEf 0).1.classes,
        c.vc_class_id = r.vc_class_id ∧ c.is_active = true) ∧
      (∀ c0 ∈ wStore.classes, (∀ r ∈ wCf, r.vc_class_id ≠ c0.vc_class_id) →
        ∃ c ∈ (syncPass wStore wCf wEf 0).1.classes, c.id = c0.id ∧ c.is_active = false) ∧
      (∀ c0 ∈ wStore.classes, ∃ c ∈ (syncPass wStore wCf wEf 0).1.classes, c.id = c0.id) ∧
      (∀ e0 ∈ wStore.enrollments, ∃ e ∈ (syncPass wStore wCf wEf 0).1.enrollments, e.id = e0.id) ∧
      (∀ v, v ∈ (runClassSync wStore wCf).seen ↔ ∃ r ∈ wCf, r.vc_class_id = v)) ∧
    ((syncPass wStore wCf wEf 0).1.classes.map (fun c => (c.id, c.vc_class_id, c.is_active)) =
        [(10, "C1", true), (11, "C3", false), (12, "C2", true)] ∧
      (runClassSync wStore wCf).seen = ["C2", "C1"]) :=
  ⟨⟨by decide, by decide, by decide⟩,
    class_sync_soft_delete wStore wCf wEf 0 (by decide) (by decide) (by decide),
    by decide⟩

/-- C6: a feed enrollment row whose external class id resolves to no stored
class contributes exactly one error naming that id; the loop still counts an
upsert for every resolvable row and records every resolvable key; the pass
completes and its summary carries exactly the per-row errors. -/
theorem unresolved_enrollment_rows_reported (s : Store) (cf : List BQClassRow)
    (ef : List BQEnrollmentRow) (now : Nat) :
    (syncPass s cf ef now).2.errors = ef.filterMap (enrollErrOf (runClassSync s cf).idMap) ∧
    (∀ r ∈ ef, mapGet (runClassSync s cf).idMap r.vc_class_id = none →
      enrollErrOf (runClassSync s cf).idMap r =
        some ("No class found for vc_class_id: " ++ r.vc_class_id)) ∧
    (∀ r ∈ ef, mapGet (runClassSync s cf).idMap r.vc_class_id ≠ none →
      enrollErrOf (runClassSync s cf).idMap r = none) ∧
    (syncPass s cf ef now).2.enrollments_upserted =
      ef.countP (fun r => (mapGet (runClassSync s cf).idMap r.vc_class_id).isSome) ∧
    (∀ r ∈ ef, ∀ k, resolveEnroll (runClassSync s cf).idMap r = some k →
      k ∈ (runEnrollSync (runClassSync s cf).idMap s.enrollments s.nextEnrollId ef).keys) := by
  refine ⟨?_, ?_, ?_, ?_, ?_⟩
  · rw [syncPass_errors, pass_enroll_errors]
  · intro r _ h
    simp [enrollErrOf, h]
  · intro r _ h
    cases hg : mapGet (runClassSync s cf).idMap r.vc_class_id with
    | none => exact absurd hg h
    | some cid => simp [enrollErrOf, hg]
  · show (runEnrollSync (runClassSync s cf).idMap s.enrollments s.nextEnrollId ef).upserted = _
    exact pass_enroll_upserted _ _ _ _
  · intro r hr k hres
    rw [mem_pass_keys]
    exact ⟨r, hr, hres⟩

/-- Witness for C6: the spec's X99 scenario — one error citing X99, the other
row still upserted. -/
theorem unresolved_enrollment_rows_witness :
    ((syncPass wStore wCf wEf 0).2.errors =
        wEf.filterMap (enrollErrOf (runClassSync wStore wCf).idMap) ∧
      (∀ r ∈ wEf, mapGet (runClassSync wStore wCf).idMap r.vc_class_id = none →
        enrollErrOf (runClassSync wStore wCf).idMap r =
          some ("No class found for vc_class_id: " ++ r.vc_class_id)) ∧
      (∀ r ∈ wEf, mapGet (runClassSync wStore wCf).idMap r.vc_class_id ≠ none →
        enrollErrOf (runClassSync wStore wCf).idMap r = none) ∧
      (syncPass wStore wCf wEf 0).2.enrollments_upserted =
        wEf.countP (fun r => (mapGet (runClassSync wStore wCf).idMap r.vc_class_id).isSome) ∧
      (∀ r ∈ wEf, ∀ k, resolveEnroll (runClassSync wStore wCf).idMap r = some k →
        k ∈ (runEnrollSync (runClassSync wStore wCf).idMap wStore.enrollments
          wStore.nextEnrollId wEf).keys)) ∧
    ((syncPass wStore wCf wEf 0).2.errors = ["No class found for vc_class_id: X99"] ∧
      (syncPass wStore wCf wEf 0).2.enrollments_upserted = 1) :=
  ⟨unresolved_enrollment_rows_reported wStore wCf wEf 0, by decide⟩

end ASP

namespace ASP

/-! ## Order-theoretic facts about the locale comparator model -/

instance : IsTotal RosterStudent rosterNameLe :=
  ⟨fun _ _ => le_total (α := Lex (List Char × List Char)) _ _⟩

instance : IsTrans RosterStudent rosterNameLe :=
  ⟨fun _ _ _ h1 h2 => le_trans (α := Lex (List Char × List Char)) h1 h2⟩

instance : IsTotal (EnrollRow × StudentRow) pageLastNameLe :=
  ⟨fun _ _ => le_total (α := Lex (List Char × List Char)) _ _⟩

instance : IsTrans (EnrollRow × StudentRow) pageLastNameLe :=
  ⟨fun _ _ _ h1 h2 => le_trans (α := Lex (List Char × List Char)) h1 h2⟩

/-- A stable sort leaves a list whose elements pairwise satisfy the relation
(for example, all-equal keys) in its original order. -/
theorem insertionSort_of_all {α : Type _} (r : α → α → Prop) [DecidableRel r] :
    ∀ l : List α, (∀ a ∈ l, ∀ b ∈ l, r a b) → l.insertionSort r = l := by
  intro l
  induction l with
  | nil => intro _; rfl
  | cons x t ih =>
    intro h
    rw [List.insertionSort]
    rw [ih (fun a ha b hb => h a (List.mem_cons_of_mem _ ha) b (List.mem_cons_of_mem _ hb))]
    cases t with
    | nil => rfl
    | cons y ys =>
      rw [List.orderedInsert,
        if_pos (h x (List.mem_cons_self _ _) y (List.mem_cons_of_mem _ (List.mem_cons_self _ _)))]

/-! ## C3 — absence semantics of the aggregators -/

/-- C3 (amended): a roster line is marked absent exactly when its student id is
in the absent set; the daily-email absent set holds exactly the students with a
`master_attendance` row for the date carrying status code 29, 30 or 72; the
detail view's absent set holds exactly the students with an `attendance` row
for the date whose status is the string `Absent`. Both sets are computed from
the external attendance tables only — the roster builders take no
manually-toggled absence input, so a student absent only by a manual mark is
not flagged (see the counterexample). -/
theorem absence_from_external_feed_only :
    (∀ (students : List StudentRow) (absent : List Nat) (e : EnrollRow),
      (rosterEntryOf students absent e).isAbsent = true ↔ e.student_person_id ∈ absent) ∧
    (∀ (att : List MasterAttendanceRow) (ids : List Nat) (d : String) (pid : Nat),
      pid ∈ emailAbsentSet att ids d ↔
        ∃ a ∈ att, a.person_id = pid ∧ a.person_id ∈ ids ∧ a.attendance_date = d ∧
          (a.student_attendance_status = 29 ∨ a.student_attendance_status = 30 ∨
            a.student_attendance_status = 72)) ∧
    (∀ (att : List AttendanceRow) (ids : List Nat) (d : String) (pid : Nat),
      pid ∈ pageAbsentSet att ids d ↔
        ∃ a ∈ att, a.person_id = pid ∧ a.person_id ∈ ids ∧ a.date = d ∧
          a.status = "Absent") := by
  refine ⟨?_, ?_, ?_⟩
  · intro students absent e
    show (absent.contains e.student_person_id) = true ↔ _
    simp [rosterEntryOf]
  · intro att ids d pid
    rw [emailAbsentSet, List.mem_map]
    constructor
    · rintro ⟨a, ha, rfl⟩
      obtain ⟨haa, hp⟩ := List.mem_filter.mp ha
      simp only [decide_eq_true_eq] at hp
      obtain ⟨h1, h2, h3⟩ := hp
      exact ⟨a, haa, rfl, by simpa using h1, h2, h3⟩
    · rintro ⟨a, ha, rfl, h1, h2, h3⟩
      refine ⟨a, List.mem_filter.mpr ⟨ha, ?_⟩, rfl⟩
      simp only [decide_eq_true_eq]
      exact ⟨by simpa using h1, h2, h3⟩
  · intro att ids d pid
    rw [pageAbsentSet, List.mem_map]
    constructor
    · rintro ⟨a, ha, rfl⟩
      obtain ⟨ha2, hstatus⟩ := List.mem_filter.mp ha
      obtain ⟨haa, hp⟩ := List.mem_filter.mp ha2
      simp only [decide_eq_true_eq] at hp hstatus
      exact ⟨a, haa, rfl, by simpa using hp.1, hp.2, hstatus⟩
    · rintro ⟨a, ha, rfl, h1, h2, h3⟩
      refine ⟨a, ?_, rfl⟩
      refine List.mem_filter.mpr ⟨List.mem_filter.mpr ⟨ha, ?_⟩, ?_⟩
      · simp only [decide_eq_true_eq]
        exact ⟨by simpa using h1, h2⟩
      · simp only [decide_eq_true_eq]
        exact h3

/-- Concrete data for the absence counterexample: one active Monday class, one
enrolled student, an empty external attendance table (the student's manual
absence mark, living outside the system, is not an input of the aggregator). -/
def cxClass : ClassRow :=
  ⟨10, "C1", "Art", "Monday", "15:45:00", "17:00:00", none, none, true⟩

def cxEnroll : EnrollRow :=
  ⟨20, 10, 7, some "enrolled", "veracross", "active", false, none, none, none⟩

def cxStudent : StudentRow := ⟨1, 7, "Bob", "Klein", 3⟩

/-- C3 counterexample: a student absent only via a manually-toggled mark is
rendered with `is_absent = false` — the aggregator consults only the external
attendance feed (here empty), and has no manual-absence input at all. -/
theorem absence_union_counterexample :
    (dailyEmailRosters [cxClass] [cxEnroll] [cxStudent] [] "Monday" "2026-01-05").map
      (fun r => r.students.map (fun st => (st.name, st.isAbsent))) =
      [[("Klein, Bob", false)]] := by
  decide

end ASP

namespace ASP

/-! ## C8 — roster ordering -/

/-- The case-insensitive (surname, given name) ordering the spec describes,
stated from the spec's words for comparison with the code's comparators. -/
def spec_surnameGivenLe (a b : StudentRow) : Prop :=
  toLex (lowerData a.last_name, lowerData a.first_name) ≤
    toLex (lowerData b.last_name, lowerData b.first_name)

instance (a b : StudentRow) : Decidable (spec_surnameGivenLe a b) := by
  unfold spec_surnameGivenLe; infer_instance

/-- C8 (amended): each email roster is the class's lines sorted by the full
`"Surname, First"` display string under the locale comparator (a permutation of
the unsorted lines); the detail view sorts by surname alone, and a stable sort
leaves entries whose keys all compare ≤ in both directions — in particular
equal surnames — in load order, so first names are not compared there. -/
theorem roster_sort_order :
    (∀ (cls : ClassRow) (enrollments : List EnrollRow) (students : List StudentRow)
        (absent : List Nat),
      List.Sorted rosterNameLe (emailRosterFor cls enrollments students absent).students ∧
      (emailRosterFor cls enrollments students absent).students.Perm
        ((enrollments.filter (fun e => e.class_id = cls.id)).map
          (rosterEntryOf students absent))) ∧
    (∀ (enrollTable : List EnrollRow) (students : List StudentRow) (classId : Nat),
      List.Sorted pageLastNameLe (classPageRoster enrollTable students classId)) ∧
    (∀ l : List (EnrollRow × StudentRow),
      (∀ a ∈ l, ∀ b ∈ l, pageLastNameLe a b) → l.insertionSort pageLastNameLe = l) := by
  refine ⟨?_, ?_, insertionSort_of_all pageLastNameLe⟩
  · intro cls enrollments students absent
    constructor
    · exact List.sorted_insertionSort rosterNameLe _
    · exact List.perm_insertionSort rosterNameLe _
  · intro enrollTable students classId
    exact List.sorted_insertionSort pageLastNameLe _

/-- Students for the sort counterexample: two students surnamed Smith, the one
with the later first name created (and listed) first. -/
def cxSmithZoe : StudentRow := ⟨2, 8, "Zoe", "Smith", 4⟩

def cxSmithAnn : StudentRow := ⟨3, 9, "Ann", "Smith", 4⟩

def cxEnrollZoe : EnrollRow :=
  ⟨30, 10, 8, some "enrolled", "veracross", "active", false, none, none, none⟩

def cxEnrollAnn : EnrollRow :=
  ⟨31, 10, 9, some "enrolled", "veracross", "active", false, none, none, none⟩

/-- C8 counterexample: the detail view compares surnames only, so with two
students both surnamed Smith loaded as [Zoe, Ann], the roster stays
[Zoe, Ann] — not ordered by surname then first name. -/
theorem roster_sort_counterexample :
    (classPageRoster [cxEnrollZoe, cxEnrollAnn] [cxSmithZoe, cxSmithAnn] 10).map
      (fun p => (p.2.last_name, p.2.first_name)) = [("Smith", "Zoe"), ("Smith", "Ann")] ∧
    ¬ List.Sorted (fun a b => spec_surnameGivenLe a.2 b.2)
      (classPageRoster [cxEnrollZoe, cxEnrollAnn] [cxSmithZoe, cxSmithAnn] 10) := by
  constructor
  · decide
  · decide

/-- Witness for C8, including the spec's concrete example: ["Smith, Ann",
"adams, Bob"] renders as ["adams, Bob", "Smith, Ann"] in the email roster. -/
theorem roster_sort_order_witness :
    ((List.Sorted rosterNameLe
        (emailRosterFor cxClass [cxEnrollZoe, cxEnrollAnn] [cxSmithZoe, cxSmithAnn] []).students ∧
      (emailRosterFor cxClass [cxEnrollZoe, cxEnrollAnn] [cxSmithZoe, cxSmithAnn] []).students.Perm
        ((([cxEnrollZoe, cxEnrollAnn] : List EnrollRow).filter
            (fun e => e.class_id = cxClass.id)).map
          (rosterEntryOf [cxSmithZoe, cxSmithAnn] []))) ∧
      ([] : List (EnrollRow × StudentRow)).insertionSort pageLastNameLe = []) ∧
    (emailRosterFor cxClass
        [cxEnrollAnn, ⟨32, 10, 7, some "enrolled", "veracross", "active", false, none, none, none⟩]
        [cxSmithAnn, ⟨4, 7, "Bob", "adams", 2⟩] []).students.map (·.name) =
      ["adams, Bob", "Smith, Ann"] :=
  ⟨⟨(roster_sort_order.1 cxClass [cxEnrollZoe, cxEnrollAnn] [cxSmithZoe, cxSmithAnn] []),
    (roster_sort_order.2.2 [] (by intro a ha; exact absurd ha (List.not_mem_nil a)))⟩,
    by decide⟩

/-! ## C9 — unknown-student placeholder -/

theorem rosterEntryOf_unknown (students : List StudentRow) (absent : List Nat)
    (e : EnrollRow) (h : studentMapGet students e.student_person_id = none) :
    (rosterEntryOf students absent e).name = "Unknown Student" ∧
      (rosterEntryOf students absent e).grade = 0 := by
  unfold rosterEntryOf
  rw [h]
  exact ⟨rfl, rfl⟩

/-- C9: when an enrollment's student id resolves to no `students` row, the
email roster still contains one line per enrollment — the dangling one rendered
as the placeholder `"Unknown Student"` with grade 0 — and every other
enrollment of the class is still rendered (the roster's length equals the
class's enrollment count). -/
theorem unknown_student_placeholder (cls : ClassRow) (enrollments : List EnrollRow)
    (students : List StudentRow) (absent : List Nat) :
    (emailRosterFor cls enrollments students absent).students.length =
      (enrollments.filter (fun e => e.class_id = cls.id)).length ∧
    (∀ e ∈ enrollments.filter (fun e => e.class_id = cls.id),
      studentMapGet students e.student_person_id = none →
      ∃ entry ∈ (emailRosterFor cls enrollments students absent).students,
        entry.name = "Unknown Student" ∧ entry.grade = 0) := by
  constructor
  · have hperm := (roster_sort_order.1 cls enrollments students absent).2
    rw [hperm.length_eq, List.length_map]
  · intro e he hnone
    refine ⟨rosterEntryOf students absent e, ?_, rosterEntryOf_unknown students absent e hnone⟩
    have hperm := (roster_sort_order.1 cls enrollments students absent).2
    rw [hperm.mem_iff]
    exact List.mem_map_of_mem _ he

/-- Witness for C9: a roster with one resolvable and one dangling enrollment
renders both lines, the dangling one as "Unknown Student", grade 0. -/
theorem unknown_student_placeholder_witness :
    ((emailRosterFor cxClass [cxEnroll, cxEnrollZoe] [cxStudent] []).students.length =
        (([cxEnroll, cxEnrollZoe] : List EnrollRow).filter
          (fun e => e.class_id = cxClass.id)).length ∧
      (∀ e ∈ ([cxEnroll, cxEnrollZoe] : List EnrollRow).filter
          (fun e => e.class_id = cxClass.id),
        studentMapGet [cxStudent] e.student_person_id = none →
        ∃ entry ∈ (emailRosterFor cxClass [cxEnroll, cxEnrollZoe] [cxStudent] []).students,
          entry.name = "Unknown Student" ∧ entry.grade = 0)) ∧
    ((emailRosterFor cxClass [cxEnroll, cxEnrollZoe] [cxStudent] []).students.map
        (fun st => (st.name, st.grade)) =
      [("Klein, Bob", 3), ("Unknown Student", 0)] ∧
      studentMapGet [cxStudent] cxEnrollZoe.student_person_id = none) :=
  ⟨unknown_student_placeholder cxClass [cxEnroll, cxEnrollZoe] [cxStudent] [], by decide⟩

end ASP

namespace ASP

/-! ## C7 — the meeting-times parsers -/

/-- C7 counterexample: the route's parser does not accept single-letter day
codes (it degrades `"M:3:45 - 5:00"` to day `Unknown`), and its fallback
carries the hard-coded default times 15:45:00–17:00:00 rather than no times;
the script's parser, fed a full weekday name, matches only the leading letter —
turning `"Thursday ..."` into `Tuesday`. -/
theorem meeting_times_parser_counterexample :
    parseMeetingTimes "M:3:45 - 5:00" =
      ⟨"Unknown", "15:45:00", "17:00:00"⟩ ∧
    parseMeetingTimesScript "Thursday 3:45 PM - 5:00 PM" = ⟨"Tuesday", none, none⟩ ∧
    ("Tuesday" : String) ≠ "Thursday" ∧
    (parseMeetingTimesScript "M:3:45 - 5:00").day_of_week = "Monday" ∧
    (parseMeetingTimes "Monday 3:45 PM - 5:00 PM").day_of_week = "Monday" := by
  decide

/-- C7 (amended): each parser accepts only its own grammar and never fails the
row. The route parser (`sync-asp-data`) accepts full weekday names, optionally
with an `H:MM AM/PM - H:MM AM/PM` range, and degrades any string without a
weekday-name head to day `Unknown` with the default times 15:45:00–17:00:00;
the script parser accepts single-letter codes M/T/W/R/F with an `H:MM - H:MM`
range (or a bare leading code letter) and degrades any string without a
leading code letter to day `Unknown` with no times. -/
theorem meeting_times_parsers_grammar :
    (∀ s : String, matchDayName s = none →
      parseMeetingTimes s = ⟨"Unknown", "15:45:00", "17:00:00"⟩) ∧
    parseMeetingTimes "Monday 3:45 PM - 5:00 PM" = ⟨"Monday", "15:45:00", "17:00:00"⟩ ∧
    (∀ s : String, (∀ c, s.data.head? = some c → c ∉ scriptDayCodes) →
      parseMeetingTimesScript s = ⟨"Unknown", none, none⟩) ∧
    parseMeetingTimesScript "W:3:45 - 5:00" = ⟨"Wednesday", some "3:45:00", some "5:00:00"⟩ := by
  refine ⟨?_, by decide, ?_, by decide⟩
  · intro s h
    unfold parseMeetingTimes
    by_cases hs : s = ""
    · rw [if_pos hs]
    · rw [if_neg hs, h]
  · intro s h
    unfold parseMeetingTimesScript
    by_cases hs : s = ""
    · rw [if_pos hs]
    · rw [if_neg hs]
      cases hd : s.data with
      | nil =>
        exfalso
        apply hs
        cases s with
        | mk data =>
          simp only at hd
          rw [hd]
      | cons c rest =>
        have hc : c ∉ scriptDayCodes := h c (by rw [hd]; rfl)
        have hms : matchScriptFull (c :: rest) = none := by
          unfold matchScriptFull
          split
          · next c' rest' heq =>
            have hcc : c = c' := by
              injection heq with h1 _
            rw [← hcc]
            rw [if_neg hc]
          · rfl
        rw [hms]
        simp [hc]

/-! ## C10 — the daily-email weekday gate and test flag -/

/-- C10: invoked on a Friday, Saturday or Sunday without the test flag, the
handler answers "No ASP classes today" before the classes query and without
calling the email service; with the test flag set, the roster day is Monday
regardless of the actual weekday. -/
theorem daily_email_gate (d : Nat) (isTest : Bool) (users : List AspUserRow)
    (classes : List ClassRow) (enrollTable : List EnrollRow) (students : List StudentRow)
    (att : List MasterAttendanceRow) (todayDate : String) (hasApiKey : Bool) :
    ((weekdayNames.getD d "") ∈ (["Friday", "Saturday", "Sunday"] : List String) →
      isTest = false →
      sendDailyEmail d isTest users classes enrollTable students att todayDate hasApiKey =
        (.noASPToday, ⟨false, false, none⟩)) ∧
    (isTest = true →
      (sendDailyEmail d isTest users classes enrollTable students att todayDate
        hasApiKey).2.targetDay = some "Monday") := by
  constructor
  · intro hd ht
    unfold sendDailyEmail
    rw [if_pos]
    constructor
    · simpa using hd
    · simp [ht]
  · intro ht
    subst ht
    unfold sendDailyEmail
    rw [if_neg (by simp)]
    dsimp only
    repeat' split
    all_goals first
    | rfl
    | (exfalso; simp_all)

/-- Witness for C10: Friday (day index 5) without the test flag returns the
early message with no class query and no email; any day with the test flag
targets Monday. -/
theorem daily_email_gate_witness :
    ((weekdayNames.getD 5 "") ∈ (["Friday", "Saturday", "Sunday"] : List String) ∧
      (false : Bool) = false ∧ (true : Bool) = true) ∧
    (sendDailyEmail 5 false [] [] [] [] [] "2026-01-09" true =
        (.noASPToday, ⟨false, false, none⟩) ∧
      (sendDailyEmail 3 true [] [] [] [] [] "2026-01-07" true).2.targetDay = some "Monday") :=
  ⟨⟨by decide, rfl, rfl⟩,
    (daily_email_gate 5 false [] [] [] [] [] "2026-01-09" true).1 (by decide) rfl,
    (daily_email_gate 3 true [] [] [] [] [] "2026-01-07" true).2 rfl⟩

end ASP

namespace ASP

/-- Witness for the amended C7 theorem: its quantified conjuncts applied to
concrete strings — a single-letter-code string falls to the route parser's
defaults, and a string with no leading day-code letter falls to the script
parser's Unknown row. -/
theorem meeting_times_parsers_grammar_witness :
    matchDayName "M:3:45 - 5:00" = none ∧
    parseMeetingTimes "M:3:45 - 5:00" = ⟨"Unknown", "15:45:00", "17:00:00"⟩ ∧
    parseMeetingTimesScript "x 1:00 - 2:00" = ⟨"Unknown", none, none⟩ :=
  ⟨by decide,
    meeting_times_parsers_grammar.1 "M:3:45 - 5:00" (by decide),
    meeting_times_parsers_grammar.2.2.1 "x 1:00 - 2:00" (by
      intro c hc
      rw [show ("x 1:00 - 2:00").data.head? = some 'x' from rfl] at hc
      injection hc with h
      rw [← h]
      decide)⟩

/-- Witness for the C3 theorem: the three absence characterisations applied at
concrete rows — an enrollment of a student in the absent set is flagged, a
master-attendance row with code 29 on the queried date lands in the email's
absent set, and an `Absent` attendance row lands in the page's absent set. -/
theorem absence_from_external_feed_only_witness :
    (rosterEntryOf [cxStudent] [7] cxEnroll).isAbsent = true ∧
    7 ∈ emailAbsentSet [⟨7, 29, "2026-01-05"⟩] [7] "2026-01-05" ∧
    7 ∈ pageAbsentSet [⟨7, "Absent", "2026-01-05"⟩] [7] "2026-01-05" :=
  ⟨(absence_from_external_feed_only.1 [cxStudent] [7] cxEnroll).mpr (by decide),
    (absence_from_external_feed_only.2.1 [⟨7, 29, "2026-01-05"⟩] [7] "2026-01-05" 7).mpr
      ⟨⟨7, 29, "2026-01-05"⟩, by decide, rfl, by decide, rfl, by decide⟩,
    (absence_from_external_feed_only.2.2 [⟨7, "Absent", "2026-01-05"⟩] [7] "2026-01-05" 7).mpr
      ⟨⟨7, "Absent", "2026-01-05"⟩, by decide, rfl, by decide, rfl, rfl⟩⟩

end ASP
